import Mathlib

/-! The component lifecycle control plane of exo.

A shallow embedding of the orchestrator in `core/project.go` together with the
API types of `api/project.go`.  Go functions returning `(value, error)` become
functions from a `World` to an `Outcome` paired with the resulting `World`;
the `World` holds the state store, the log of calls issued to the store and to
lifecycle variants, and the positions of the id generator and of the clock.
-/

namespace Exo

/-- Result of a Go call that returns `(value, error)` and may also panic. -/
inductive Outcome (α : Type) where
  | ok (value : α)
  | error (err : String)
  | panic (msg : String)
deriving DecidableEq, Repr

/-- Go slice: `none` is the nil slice, `some xs` a non-nil slice holding `xs`. -/
abbrev Slice (α : Type) := Option (List α)

/-- Go builtin `append(s, x)`; appending to the nil slice allocates. -/
def Slice.append {α : Type} (s : Slice α) (x : α) : Slice α :=
  match s with
  | none => some [x]
  | some xs => some (xs ++ [x])

/-! ## Package `state`: the store interface consumed by the orchestrator -/

namespace state

/-- Store record of one component (`state.ComponentDescription`). -/
structure ComponentDescription where
  ID : String
  ProjectID : String
  Name : String
  Typ : String
  Spec : String
  State : String
  Created : String
  Initialized : Option String
  Disposed : Option String
deriving DecidableEq, Repr

structure DescribeComponentsInput where
  ProjectID : String
  /-- Optional name set; `none` is the omitted field. -/
  Names : Option (List String)
deriving DecidableEq, Repr

structure DescribeComponentsOutput where
  Components : List ComponentDescription
deriving DecidableEq, Repr

structure AddComponentInput where
  ProjectID : String
  ID : String
  Name : String
  Typ : String
  Spec : String
  Created : String
deriving DecidableEq, Repr

/-- Fields of a patch; an absent field leaves the record's field as it is. -/
structure PatchComponentInput where
  ID : String
  State : Option String
  Initialized : Option String
deriving DecidableEq, Repr

structure RemoveComponentInput where
  ID : String
deriving DecidableEq, Repr

/-- Modelled from the spec: the state store (package `state`, whose
implementation is not among the sources) is an ordered collection of component
records, in creation order. -/
abbrev Store := List ComponentDescription

/-- Modelled from the spec: `describe(projectID, optional name-set) → ordered
records`.  The store's `DescribeComponents` lists, in store order, the records
of the project, restricted to the given names when a name set is passed. -/
def DescribeComponents (sto : Store) (input : DescribeComponentsInput) :
    Except String DescribeComponentsOutput :=
  .ok { Components := sto.filter (fun c =>
          decide (c.ProjectID = input.ProjectID) &&
          (match input.Names with
           | none => true
           | some names => decide (c.Name ∈ names))) }

/-- Modelled from the spec: `add(projectID, id, name, type, spec, createdTime)
→ ok | DuplicateName`.  The store's `AddComponent` appends a record in the
`Created` state (`initialized` and `disposed` null, empty state) unless the
project already holds a component of that name. -/
def AddComponent (sto : Store) (input : AddComponentInput) : Except String Store :=
  if sto.any (fun c => decide (c.ProjectID = input.ProjectID) && decide (c.Name = input.Name)) then
    .error "DuplicateName"
  else
    .ok (sto ++ [{ ID := input.ID, ProjectID := input.ProjectID, Name := input.Name,
                   Typ := input.Typ, Spec := input.Spec, State := "",
                   Created := input.Created, Initialized := none, Disposed := none }])

/-- Modelled from the spec: `patch(id, partial fields) → ok | NotFound`.  The
store's `PatchComponent` overwrites the given fields of the record with that
id. -/
def PatchComponent (sto : Store) (input : PatchComponentInput) : Except String Store :=
  if sto.any (fun c => decide (c.ID = input.ID)) then
    .ok (sto.map (fun c =>
      if c.ID = input.ID then
        { c with State := input.State.getD c.State,
                 Initialized := match input.Initialized with
                                | none => c.Initialized
                                | some t => some t }
      else c))
  else
    .error "NotFound"

/-- Modelled from the spec: `remove(id) → ok | NotFound`.  The store's
`RemoveComponent` drops the record with that id. -/
def RemoveComponent (sto : Store) (input : RemoveComponentInput) : Except String Store :=
  if sto.any (fun c => decide (c.ID = input.ID)) then
    .ok (sto.filter (fun c => decide (c.ID ≠ input.ID)))
  else
    .error "NotFound"

end state

/-! ## Package `api` -/

namespace api

structure ComponentDescription where
  ID : String
  Name : String
  Typ : String
  Spec : String
  State : String
  Created : String
  Initialized : Option String
  Disposed : Option String
deriving DecidableEq, Repr

structure DeleteInput where
deriving DecidableEq, Repr

structure DeleteOutput where
deriving DecidableEq, Repr

structure DescribeComponentsInput where
deriving DecidableEq, Repr

structure DescribeComponentsOutput where
  Components : Slice ComponentDescription
deriving DecidableEq, Repr

structure CreateComponentInput where
  Name : String
  Typ : String
  Spec : String
deriving DecidableEq, Repr

structure CreateComponentOutput where
  ID : String
deriving DecidableEq, Repr

structure UpdateComponentInput where
  Name : String
  Spec : String
deriving DecidableEq, Repr

structure UpdateComponentOutput where
deriving DecidableEq, Repr

structure DisposeComponentInput where
  Name : String
deriving DecidableEq, Repr

structure RefreshComponentInput where
  Name : String
deriving DecidableEq, Repr

structure RefreshComponentOutput where
deriving DecidableEq, Repr

structure DisposeComponentOutput where
deriving DecidableEq, Repr

structure DeleteComponentInput where
  Name : String
deriving DecidableEq, Repr

structure DeleteComponentOutput where
deriving DecidableEq, Repr

/-- Input of the lifecycle event run at creation. -/
structure InitializeInput where
  ID : String
  Spec : String
deriving DecidableEq, Repr

structure InitializeOutput where
  State : String
deriving DecidableEq, Repr

structure DisposeInput where
  ID : String
  State : String
deriving DecidableEq, Repr

structure DisposeOutput where
deriving DecidableEq, Repr

end api

/-! ## Ambient collaborators -/

/-- What the orchestrator obtains from outside the repository or from side
effects on the host: the standard library (`os.Getwd`, `filepath.Join`, the
`%q` verb), the id generator, the clock, and the effects of the `process`
variant, which launches and signals a supervisor. -/
structure Env where
  /-- Result of `os.Getwd()`. -/
  Getwd : Except String String
  /-- Function `filepath.Join` on two elements. -/
  Join : String → String → String
  /-- Formatting of a string under the `%q` verb. -/
  Quote : String → String
  /-- The `n`-th symbol drawn from `gensym.Base32()`. -/
  Base32 : Nat → String
  /-- The `n`-th reading of `chrono.NowString(ctx)`. -/
  NowString : Nat → String
  /-- Effect of the `process` variant's Initialize, given its two directories. -/
  processInitialize : String → String → api.InitializeInput → Except String api.InitializeOutput
  /-- Effect of the `process` variant's Dispose, given its two directories. -/
  processDispose : String → String → api.DisposeInput → Except String api.DisposeOutput

/-- Calls issued by the orchestrator, in the order they are made. -/
inductive Event where
  | storeDescribe (input : state.DescribeComponentsInput)
  | storeAdd (input : state.AddComponentInput)
  | storePatch (input : state.PatchComponentInput)
  | storeRemove (input : state.RemoveComponentInput)
  | lifecycleInit (input : api.InitializeInput)
  | lifecycleDispose (input : api.DisposeInput)
deriving DecidableEq, Repr

/-- The store reached through `state.CurrentStore(ctx)`, the calls made so far,
and how many symbols and clock readings have been consumed. -/
structure World where
  store : state.Store
  trace : List Event
  syms : Nat
  clock : Nat
deriving DecidableEq, Repr

/-- Log one call. -/
def World.record (w : World) (e : Event) : World :=
  { w with trace := w.trace ++ [e] }

/-! ## Package `core` -/

namespace core

/-- Lifecycle variants reachable from `resolveLifecycle`: `process.Lifecycle`
with its two directories and `invalid.Lifecycle` with its fixed error. -/
inductive Lifecycle where
  | process (ProjectDir : String) (VarDir : String)
  | invalid (Err : String)
deriving DecidableEq, Repr

/-- Modelled from the spec: `invalid.Lifecycle` (package `components/invalid`,
not among the sources) returns its fixed error unchanged from every operation;
the `process` variant's Initialize is the effect supplied by the environment. -/
def Lifecycle.Initialize (env : Env) (lifecycle : Lifecycle) (input : api.InitializeInput) :
    Except String api.InitializeOutput :=
  match lifecycle with
  | .process projectDir varDir => env.processInitialize projectDir varDir input
  | .invalid err => .error err

/-- Modelled from the spec: `invalid.Lifecycle` returns its fixed error
unchanged from Dispose; the `process` variant's Dispose is the effect supplied
by the environment. -/
def Lifecycle.Dispose (env : Env) (lifecycle : Lifecycle) (input : api.DisposeInput) :
    Except String api.DisposeOutput :=
  match lifecycle with
  | .process projectDir varDir => env.processDispose projectDir varDir input
  | .invalid err => .error err

structure Project where
  ID : String
deriving DecidableEq, Repr

/-- Function `resolveLifecycle`; `.error msg` stands for `panic(err)`. -/
def resolveLifecycle (env : Env) (typ : String) : Except String Lifecycle :=
  if typ = "process" then
    match env.Getwd with
    | .error err => .error err
    | .ok wd =>
      let projectDir := wd
      let varDir := env.Join wd "var"
      .ok (Lifecycle.process projectDir (env.Join varDir "proc"))
  else
    .ok (Lifecycle.invalid ("unsupported component type: " ++ env.Quote typ))

/-- Function `IsValidName`. -/
def IsValidName (name : String) : Bool :=
  name != ""

/-- Copy of a store record into an API description, field by field. -/
def describe (component : state.ComponentDescription) : api.ComponentDescription :=
  { ID := component.ID
    Name := component.Name
    Typ := component.Typ
    Spec := component.Spec
    State := component.State
    Created := component.Created
    Initialized := component.Initialized
    Disposed := component.Disposed }

/-- Method `Project.DescribeComponents`. -/
def Project.DescribeComponents (proj : Project) (_input : api.DescribeComponentsInput)
    (w : World) : Outcome api.DescribeComponentsOutput × World :=
  let query : state.DescribeComponentsInput := { ProjectID := proj.ID, Names := none }
  let w := w.record (.storeDescribe query)
  match state.DescribeComponents w.store query with
  | .error err => (.error err, w)
  | .ok stateOutput =>
    (.ok { Components :=
            stateOutput.Components.foldl (fun acc component => Slice.append acc (describe component))
              (some []) }, w)

/-- Method `Project.CreateComponent`. -/
def Project.CreateComponent (env : Env) (_proj : Project) (input : api.CreateComponentInput)
    (w : World) : Outcome api.CreateComponentOutput × World :=
  if !IsValidName input.Name then
    (.error ("invalid name: " ++ env.Quote input.Name), w)
  else
    let id := env.Base32 w.syms
    let w := { w with syms := w.syms + 1 }
    let created := env.NowString w.clock
    let w := { w with clock := w.clock + 1 }
    let add : state.AddComponentInput :=
      { ProjectID := "default", ID := id, Name := input.Name, Typ := input.Typ,
        Spec := input.Spec, Created := created }
    let w := w.record (.storeAdd add)
    match state.AddComponent w.store add with
    | .error err => (.error ("adding component: " ++ err), w)
    | .ok sto =>
      let w := { w with store := sto }
      match resolveLifecycle env input.Typ with
      | .error msg => (.panic msg, w)
      | .ok lifecycle =>
        let init : api.InitializeInput := { ID := id, Spec := input.Spec }
        let w := w.record (.lifecycleInit init)
        match lifecycle.Initialize env init with
        | .error err => (.error err, w)
        | .ok output =>
          let now := env.NowString w.clock
          let w := { w with clock := w.clock + 1 }
          let patch : state.PatchComponentInput :=
            { ID := id, State := some output.State, Initialized := some now }
          let w := w.record (.storePatch patch)
          match state.PatchComponent w.store patch with
          | .error err => (.error ("modifying component after initialization: " ++ err), w)
          | .ok sto => (.ok { ID := id }, { w with store := sto })

/-- Method `Project.UpdateComponent`. -/
def Project.UpdateComponent (_proj : Project) (_input : api.UpdateComponentInput)
    (w : World) : Outcome api.UpdateComponentOutput × World :=
  (.panic "TODO: UpdateComponent", w)

/-- Method `Project.RefreshComponent`. -/
def Project.RefreshComponent (_proj : Project) (_input : api.RefreshComponentInput)
    (w : World) : Outcome api.RefreshComponentOutput × World :=
  (.panic "TODO: RefreshComponent", w)

/-- Method `Project.DisposeComponent`. -/
def Project.DisposeComponent (_proj : Project) (_input : api.DisposeComponentInput)
    (w : World) : Outcome api.DisposeComponentOutput × World :=
  (.panic "TODO: DisposeComponent", w)

/-- Method `Project.disposeComponent`; the value is the id it returns. -/
def Project.disposeComponent (env : Env) (proj : Project) (name : String)
    (w : World) : Outcome String × World :=
  let query : state.DescribeComponentsInput := { ProjectID := proj.ID, Names := some [name] }
  let w := w.record (.storeDescribe query)
  match state.DescribeComponents w.store query with
  | .error err => (.error ("describing components: " ++ err), w)
  | .ok describeOutput =>
    match describeOutput.Components with
    | [] => (.error ("no component named " ++ env.Quote name), w)
    | component :: _ =>
      match resolveLifecycle env component.Typ with
      | .error msg => (.panic msg, w)
      | .ok lifecycle =>
        let dispose : api.DisposeInput := { ID := component.ID, State := component.State }
        let w := w.record (.lifecycleDispose dispose)
        match lifecycle.Dispose env dispose with
        | .error err => (.error err, w)
        | .ok _ => (.ok component.ID, w)

/-- Method `Project.DeleteComponent`. -/
def Project.DeleteComponent (env : Env) (proj : Project) (input : api.DeleteComponentInput)
    (w : World) : Outcome api.DeleteComponentOutput × World :=
  match proj.disposeComponent env input.Name w with
  | (.panic msg, w) => (.panic msg, w)
  | (.error err, w) => (.error ("disposing: " ++ err), w)
  | (.ok componentID, w) =>
    let remove : state.RemoveComponentInput := { ID := componentID }
    let w := w.record (.storeRemove remove)
    match state.RemoveComponent w.store remove with
    | .error err => (.error ("removing from state store: " ++ err), w)
    | .ok sto => (.ok {}, { w with store := sto })

/-- The loop of `Project.Delete` over the components described at its start. -/
def Project.deleteEach (env : Env) (proj : Project) :
    List state.ComponentDescription → World → Outcome api.DeleteOutput × World
  | [], w => (.ok {}, w)
  | component :: rest, w =>
    match proj.DeleteComponent env { Name := component.Name } w with
    | (.panic msg, w) => (.panic msg, w)
    | (.error err, w) => (.error ("deleting " ++ component.Name ++ ": " ++ err), w)
    | (.ok _, w) => Project.deleteEach env proj rest w

/-- Method `Project.Delete`. -/
def Project.Delete (env : Env) (proj : Project) (_input : api.DeleteInput)
    (w : World) : Outcome api.DeleteOutput × World :=
  let query : state.DescribeComponentsInput := { ProjectID := proj.ID, Names := none }
  let w := w.record (.storeDescribe query)
  match state.DescribeComponents w.store query with
  | .error err => (.error ("describing components: " ++ err), w)
  | .ok describeOutput => Project.deleteEach env proj describeOutput.Components w

/-- The calls `Project.Delete` issues for components whose deletion succeeds:
for each in turn, the describe of its name, its Dispose and the remove of its
id. -/
def deleteCalls (proj : Project) : List state.ComponentDescription → List Event
  | [] => []
  | c :: rest =>
    [Event.storeDescribe { ProjectID := proj.ID, Names := some [c.Name] },
     Event.lifecycleDispose { ID := c.ID, State := c.State },
     Event.storeRemove { ID := c.ID }] ++ deleteCalls proj rest

end core

/-- Keyed storage: no two records of the store carry the same id. -/
def state.Store.Keyed (sto : state.Store) : Prop :=
  (sto.map (fun c => c.ID)).Nodup

instance state.Store.decidableKeyed (sto : state.Store) : Decidable sto.Keyed :=
  List.nodupDecidable (sto.map (fun c : state.ComponentDescription => c.ID))

/-! ## Concrete collaborators used to evaluate the definitions -/

/-- An environment in which the working directory is `/w`, the `i`-th symbol is
`id` followed by `i`, the `i`-th clock reading is `t` followed by `i`, and the
`process` variant succeeds. -/
def sampleEnv : Env :=
  { Getwd := .ok "/w"
    Join := fun a b => a ++ "/" ++ b
    Quote := fun s => "\"" ++ s ++ "\""
    Base32 := fun n => "id" ++ toString n
    NowString := fun n => "t" ++ toString n
    processInitialize := fun _ _ input => .ok { State := "pid:" ++ input.ID }
    processDispose := fun _ _ _ => .ok {} }

/-- As `sampleEnv`, except that the `process` variant fails every event. -/
def failingEnv : Env :=
  { sampleEnv with
    processInitialize := fun _ _ _ => .error "spawn failed"
    processDispose := fun _ _ _ => .error "kill failed" }

/-- As `sampleEnv`, except that the supervisor of component `id1` cannot be
signalled. -/
def stubbornEnv : Env :=
  { sampleEnv with
    processDispose := fun _ _ input =>
      if input.ID = "id1" then .error "kill failed" else .ok {} }

/-- The empty world. -/
def emptyWorld : World :=
  { store := [], trace := [], syms := 0, clock := 0 }

/-- An initialized process component of the project `default`. -/
def processRecord (id name : String) : state.ComponentDescription :=
  { ID := id, ProjectID := "default", Name := name, Typ := "process", Spec := "run",
    State := "pid:" ++ id, Created := "t0", Initialized := some "t1", Disposed := none }

/-- A world whose store holds the live process component `web`. -/
def liveWorld : World :=
  { store := [processRecord "id0" "web"], trace := [], syms := 1, clock := 2 }

/-- A world whose project `default` holds `web`, `db` and `cache` in that
order, next to a component of another project. -/
def threeWorld : World :=
  { store := [processRecord "id0" "web",
              { processRecord "id9" "web" with ProjectID := "other" },
              processRecord "id1" "db",
              processRecord "id2" "cache"],
    trace := [], syms := 4, clock := 8 }

/-! ## Package `fifofum`: the process supervisor -/

namespace fifofum

/-- One byte of a stream. -/
abbrev Byte := Nat

/-- The byte `'\n'`. -/
def newline : Byte := 10

/-- The byte `'\r'`. -/
def carriageReturn : Byte := 13

/-- Errors a read can report: `io.EOF`, `bufio.ErrBufferFull`, or another error
with its text. -/
inductive ReadError where
  | EOF
  | ErrBufferFull
  | other (msg : String)
deriving DecidableEq, Repr

/-- Text of a read error under the `%v` verb. -/
def ReadError.text : ReadError → String
  | .EOF => "EOF"
  | .ErrBufferFull => "bufio: buffer full"
  | .other msg => msg

/-- A `bufio.Reader` over the child's stream: the size of its buffer, the bytes
of the stream it has not returned yet, and how the stream ends once they are
exhausted (`none` for end of file, `some msg` for a read error, reported by
every read from then on; the end is reported by a read of its own, as a pipe
does). -/
structure Reader where
  size : Nat
  rest : List Byte
  fin : Option String
deriving DecidableEq, Repr

/-- Error with which the stream ends. -/
def Reader.finError (b : Reader) : ReadError :=
  match b.fin with
  | none => .EOF
  | some msg => .other msg

/-- Function `bufio.NewReaderSize`: the buffer has at least 16 bytes. -/
def NewReaderSize (data : List Byte) (fin : Option String) (size : Nat) : Reader :=
  { size := if size < 16 then 16 else size, rest := data, fin := fin }

/-- Search for `'\n'` among the first `n` bytes: the bytes up to and including
it, and the bytes after it. -/
def cutLine : Nat → List Byte → Option (List Byte × List Byte)
  | 0, _ => none
  | _ + 1, [] => none
  | n + 1, c :: cs =>
    if c = newline then some ([c], cs)
    else
      match cutLine n cs with
      | some (line, rest) => some (c :: line, rest)
      | none => none

/-- Method `bufio.Reader.ReadSlice` with delimiter `'\n'`: the line up to and
including the delimiter when it lies within a buffer's length; else a full
buffer with `ErrBufferFull`; else the remaining bytes with the error that ends
the stream. -/
def Reader.ReadSlice (b : Reader) : List Byte × Option ReadError × Reader :=
  match cutLine b.size b.rest with
  | some (line, rest) => (line, none, { b with rest := rest })
  | none =>
    if b.size ≤ b.rest.length then
      (b.rest.take b.size, some .ErrBufferFull, { b with rest := b.rest.drop b.size })
    else
      (b.rest, some b.finError, { b with rest := [] })

/-- Method `bufio.Reader.ReadLine`: `(line, isPrefix, err)` and the reader
afterwards.  A full buffer is returned as a prefix, its final `'\r'` put back;
a line is returned without its `"\n"` or `"\r\n"`; an error is returned only
with no bytes. -/
def Reader.ReadLine (b : Reader) : (List Byte × Bool × Option ReadError) × Reader :=
  match b.ReadSlice with
  | (line, err, b1) =>
    if err = some .ErrBufferFull then
      if line.getLast? = some carriageReturn then
        ((line.dropLast, true, none), { b1 with rest := carriageReturn :: b1.rest })
      else
        ((line, true, none), b1)
    else if line = [] then
      (([], false, err), b1)
    else if line.getLast? = some newline then
      if line.dropLast.getLast? = some carriageReturn then
        ((line.dropLast.dropLast, false, none), b1)
      else
        ((line.dropLast, false, none), b1)
    else
      ((line, false, none), b1)

/-- A line without its final `'\r'`, if it has one. -/
def stripCR (line : List Byte) : List Byte :=
  if line.getLast? = some carriageReturn then line.dropLast else line

/-- Signals the supervisor is notified of. -/
inductive Signal where
  | Interrupt
  | Kill
  | SIGCHLD
deriving DecidableEq, Repr

/-- What the supervisor does to the outside, in order. -/
inductive Effect where
  | start (program : String) (arguments : List String)
  | stdout (text : String)
  | stderr (text : String)
  | notify
  | spawn (task : String)
  | forward (sig : Signal)
  | kill (pid : Nat)
  | mkfifo (path : String)
  | openFifo (path : String)
  | write (line : List Byte)
deriving DecidableEq, Repr

/-- How a run ends: the function returns, the process exits with a status, a
panic, the process is still running after the observed events, or the loop
model ran out of steps. -/
inductive Ending where
  | returned
  | exit (code : Int)
  | panicked (msg : String)
  | running
  | outOfFuel
deriving DecidableEq, Repr

/-- A run: what was done, and how it ended. -/
abbrev Run := List Effect × Ending

/-- Put effects in front of a run. -/
def Run.after (effects : List Effect) (r : Run) : Run :=
  (effects ++ r.1, r.2)

/-- The standard library as the supervisor uses it. -/
structure Sys where
  /-- Function `filepath.Join` on two elements. -/
  Join : String → String → String
  /-- Formatting of a string under the `%q` verb. -/
  Quote : String → String

/-- Modelled from the spec: `cmdutil.Fatalf` (package `util/cmdutil`, not among
the sources) reports the formatted message on standard error and exits with
the fixed non-zero status 1. -/
def Fatalf (msg : String) : Run :=
  ([Effect.stderr msg], Ending.exit 1)

/-- Function `fatalf`, given the global `child` and the formatted message. -/
def fatalf (child : Option Nat) (msg : String) : Run :=
  match child with
  | some pid => Run.after [Effect.kill pid] (Fatalf msg)
  | none => Fatalf msg

/-- Result of `syscall.Mkfifo` as `pipeToFifo` tells it apart: success, an
error for which `os.IsExist` holds, or another error. -/
inductive MkfifoResult where
  | ok
  | exist (err : String)
  | failed (err : String)
deriving DecidableEq, Repr

/-- What the file system answers to one `pipeToFifo`. -/
structure FifoHost where
  Mkfifo : MkfifoResult
  OpenFile : Except String Unit

/-- The inner loops of `pipeToFifo` on the open pipe.  `saved` is `none` at the
head of the line loop and `some line` inside the loop that skips the remainder
of a line that was too long; each step is one `ReadLine`. -/
def pipeLoop (child : Option Nat) (name : String) :
    Nat → Reader → Option (List Byte) → Run
  | 0, _, _ => ([], Ending.outOfFuel)
  | fuel + 1, b, saved =>
    match b.ReadLine with
    | ((line, isPrefix, err), b1) =>
      if err = some ReadError.EOF then ([], Ending.returned)
      else
        match err with
        | some e => fatalf child ("reading " ++ name ++ ": " ++ e.text)
        | none =>
          let line := match saved with
            | none => line
            | some first => first
          if isPrefix then pipeLoop child name fuel b1 (some line)
          else Run.after [Effect.write (line ++ [newline])] (pipeLoop child name fuel b1 none)

/-- Function `pipeToFifo`, given the globals `child` and `varDir`, the value of
`api.MaxMessageSize`, and the stream read from `r`. -/
def pipeToFifo (sys : Sys) (child : Option Nat) (varDir : String) (MaxMessageSize : Nat)
    (host : FifoHost) (name : String) (data : List Byte) (fin : Option String) : Run :=
  let b := NewReaderSize data fin MaxMessageSize
  let fifoPath := sys.Join varDir name
  Run.after [Effect.mkfifo fifoPath]
    (match host.Mkfifo with
     | .failed err => fatalf child ("making fifo " ++ sys.Quote fifoPath ++ ": " ++ err)
     | _ =>
       Run.after [Effect.openFifo fifoPath]
         (match host.OpenFile with
          | .error err => fatalf child ("opening fifo " ++ sys.Quote fifoPath ++ ": " ++ err)
          | .ok _ => pipeLoop child name (data.length + 1) b none))

/-- The records written to the pipe in a run. -/
def writes (r : Run) : List (List Byte) :=
  r.1.filterMap (fun e => match e with
    | Effect.write line => some line
    | _ => none)

/-- Result of `cmd.Wait()`: nil, an `*exec.ExitError` with its `ExitCode()`, or
another error. -/
inductive WaitResult where
  | success
  | exitError (code : Int)
  | failed (err : String)
deriving DecidableEq, Repr

/-- What the supervisor observes once the goroutines are started: a signal
taken from the channel by the handler, or the return of `cmd.Wait()`. -/
inductive Step where
  | signal (sig : Signal)
  | waitReturns
deriving DecidableEq, Repr

/-- What the host answers to `Main`, and the order in which signals and the
return of the wait are observed. -/
structure Host where
  StdoutPipe : Except String Unit
  StderrPipe : Except String Unit
  Start : Except String Nat
  Println : Except String Unit
  Wait : WaitResult
  observed : List Step

/-- The signal handler and the wait of `Main`, run in the order observed: the
first `os.Exit` reached ends the process. -/
def supervise (pid : Nat) (wait : WaitResult) : List Step → Run
  | [] => ([], Ending.running)
  | Step.signal Signal.SIGCHLD :: _ => ([], Ending.exit 1)
  | Step.signal sig :: rest => Run.after [Effect.forward sig] (supervise pid wait rest)
  | Step.waitReturns :: _ =>
    match wait with
    | .exitError code => ([], Ending.exit code)
    | .failed err => fatalf (some pid) ("wait error: " ++ err)
    | .success => ([], Ending.returned)

/-- The usage message of `Main`. -/
def usage (command : String) : String :=
  "usage: " ++ command ++ " <vardir> <program> <args...>\n\n" ++
  "fifofum executes and supervises the given command. If successful, the child\n" ++
  "pid is written to stdout and two fifo files are created in vardir: out and err.\n" ++
  "The corresponding stdio streams will be proxied from the supervised process to\n" ++
  "those fifos."

/-- Function `Main`.  The two `pipeToFifo` goroutines it starts are runs of
their own, with `child` set to the pid and `varDir` to the first argument. -/
def Main (host : Host) (command : String) (args : List String) : Run :=
  match args with
  | _varDir :: program :: arguments =>
    match host.StdoutPipe with
    | .error err => ([], Ending.panicked err)
    | .ok _ =>
      match host.StderrPipe with
      | .error err => ([], Ending.panicked err)
      | .ok _ =>
        Run.after [Effect.start program arguments]
          (match host.Start with
           | .error err => fatalf none err
           | .ok pid =>
             Run.after [Effect.stdout (toString pid ++ "\n")]
               (match host.Println with
                | .error err => fatalf (some pid) ("reporting pid: " ++ err)
                | .ok _ =>
                  Run.after
                    [Effect.notify, Effect.spawn "signals", Effect.spawn "out",
                     Effect.spawn "err"]
                    (supervise pid host.Wait host.observed)))
  | _ => fatalf none (usage command)

end fifofum

/-! ## Package `template`: variable substitution in compose files

Strings are lists of characters, and an index into a string counts
characters. -/

namespace template

/-- Type `Variable`. -/
structure Variable where
  Name : List Char
  Braces : Bool
  Separator : List Char
  DefaultOrError : List Char
deriving DecidableEq, Repr

/-- An element of a `Sequence`: a `*Literal` or a `*Variable`. -/
inductive Element where
  | Literal (Value : List Char)
  | Variable (v : Variable)
deriving DecidableEq, Repr

/-- Type `Sequence`. -/
structure Sequence where
  Elements : List Element
deriving DecidableEq, Repr

/-- Interface `Environment`: the result of `Lookup` on a variable. -/
abbrev Environment := Variable → Except String (List Char)

/-- The class `[_a-z]` under the flag `i`, which folds in the long s and the
Kelvin sign. -/
def isNameStart (c : Char) : Bool :=
  decide (c = '_') || (decide ('a' ≤ c) && decide (c ≤ 'z')) ||
  (decide ('A' ≤ c) && decide (c ≤ 'Z')) || decide (c = 'ſ') || decide (c = 'K')

/-- The class `[_a-z0-9]` under the flag `i`. -/
def isNameChar (c : Char) : Bool :=
  isNameStart c || (decide ('0' ≤ c) && decide (c ≤ '9'))

/-- The class `[^}]`. -/
def notClose (c : Char) : Bool :=
  !decide (c = '}')

/-- Length of what `:?[-?]` matches at the head of the text, 0 when it does not
match. -/
def sepLen : List Char → Nat
  | c :: d :: _ =>
    if c = ':' then (if d = '-' ∨ d = '?' then 2 else 0)
    else if c = '-' ∨ c = '?' then 1 else 0
  | [c] => if c = '-' ∨ c = '?' then 1 else 0
  | [] => 0

/-- What the alternative of `pattern` that starts with `\$` matches: the escape
`$$`, a name of the given length after `$`, or a name in braces, with the
lengths of the separator and of the default when they are there. -/
inductive Shape where
  | escape
  | plain (name : Nat)
  | braced (name : Nat) (rest : Option (Nat × Nat))
deriving DecidableEq, Repr

/-- Number of characters matched. -/
def Shape.len : Shape → Nat
  | .escape => 2
  | .plain n => 1 + n
  | .braced n none => 2 + n + 1
  | .braced n (some (k, d)) => 2 + n + k + d + 1

/-- The twelve indices reported for a match at position `p`: the match, then
the five groups of `pattern`, `-1` twice for a group that took no part. -/
def Shape.indices (p : Nat) : Shape → List Int
  | .escape => [p, (p + 2 : Nat), (p + 1 : Nat), (p + 2 : Nat), -1, -1, -1, -1, -1, -1, -1, -1]
  | .plain n =>
    [p, (p + 1 + n : Nat), -1, -1, (p + 1 : Nat), (p + 1 + n : Nat), -1, -1, -1, -1, -1, -1]
  | .braced n none =>
    [p, (p + 2 + n + 1 : Nat), -1, -1, -1, -1, (p + 2 : Nat), (p + 2 + n : Nat), -1, -1, -1, -1]
  | .braced n (some (k, d)) =>
    [p, (p + 2 + n + k + d + 1 : Nat), -1, -1, -1, -1, (p + 2 : Nat), (p + 2 + n : Nat),
     (p + 2 + n : Nat), (p + 2 + n + k : Nat), (p + 2 + n + k : Nat), (p + 2 + n + k + d : Nat)]

/-- The match of `\$(?:(\$)|([_a-z][_a-z0-9]*)|{([_a-z][_a-z0-9]*)(?:(:?[-?])([^}]*))?})`
at the head of the text, if there is one. -/
def shapeAt : List Char → Option Shape
  | c0 :: c :: tl =>
    if c0 ≠ '$' then none
    else if c = '$' then some Shape.escape
    else if isNameStart c then some (Shape.plain (1 + (tl.takeWhile isNameChar).length))
    else if c = '{' then
      match tl with
      | d :: tl2 =>
        if isNameStart d then
          let n := 1 + (tl2.takeWhile isNameChar).length
          let after := tl2.dropWhile isNameChar
          match sepLen after with
          | 0 =>
            match after with
            | e :: _ => if e = '}' then some (Shape.braced n none) else none
            | [] => none
          | k + 1 =>
            let body := after.drop (k + 1)
            match body.dropWhile notClose with
            | _ :: _ =>
              some (Shape.braced n
                (some (k + 1, (body.takeWhile notClose).length)))
            | [] => none
        else none
      | [] => none
    else none
  | _ => none

/-- The indices reported for the empty match of `$` at the end of the text. -/
def endMatch (p : Nat) : List Int :=
  [p, p, -1, -1, -1, -1, -1, -1, -1, -1, -1, -1]

/-- The successive matches of `pattern` from position `p` on, `skip`
characters of the text still belonging to the previous match; `abut` tells
that the previous match ends here, in which case the empty match at the end
is not reported. -/
def scan : Nat → Nat → Bool → List Char → List (List Int)
  | p, _, abut, [] => if abut then [] else [endMatch p]
  | p, skip + 1, _, _ :: tl => scan (p + 1) skip true tl
  | p, 0, _, c :: tl =>
    match shapeAt (c :: tl) with
    | some shape => shape.indices p :: scan (p + 1) (shape.len - 1) true tl
    | none => scan (p + 1) 0 false tl

/-- The call `pattern.FindAllStringSubmatchIndex(s, -1)`. -/
def FindAllStringSubmatchIndex (s : List Char) : List (List Int) :=
  scan 0 0 false s

/-- Entry `i` of a match. -/
def entry (m : List Int) (i : Nat) : Int :=
  m.getD i (-1)

/-- The slice `s[i:j]`. -/
def slice (s : List Char) (i j : Int) : List Char :=
  (s.drop i.toNat).take (j.toNat - i.toNat)

/-- The variable `Parse` builds from a match with a name at `s[nameLeft:nameRight]`. -/
def makeVariable (s : List Char) (m : List Int) (nameLeft nameRight : Int) : Variable :=
  let v : Variable :=
    { Name := slice s nameLeft nameRight
      Braces := decide (s.get? (nameLeft - 1).toNat = some '{')
      Separator := []
      DefaultOrError := [] }
  let defaultLeft := entry m 10
  let defaultRight := entry m 11
  if defaultLeft ≠ -1 then
    let sepLeft := entry m 8
    let sepRight := entry m 9
    { v with DefaultOrError := slice s defaultLeft defaultRight
             Separator := slice s sepLeft sepRight }
  else v

/-- The loop of `Parse` over the matches, from the current `left` and
`elements`. -/
def parseMatches (s : List Char) : Int → List Element → List (List Int) → List Element
  | _, elements, [] => elements
  | left, elements, m :: later =>
    let matchLeft := entry m 0
    let matchRight := entry m 1
    let escaped := entry m 2 ≠ -1
    if escaped then
      parseMatches s matchRight
        (elements ++ [Element.Literal (slice s left matchLeft ++ ['$'])]) later
    else
      let elements :=
        if left < matchLeft then elements ++ [Element.Literal (slice s left matchLeft)]
        else elements
      let left := matchRight
      let nameLeft := if entry m 4 = -1 then entry m 6 else entry m 4
      let nameRight := if entry m 4 = -1 then entry m 7 else entry m 5
      if nameLeft = -1 then elements
      else parseMatches s left (elements ++ [Element.Variable (makeVariable s m nameLeft nameRight)])
        later

/-- Function `Parse`. -/
def Parse (s : List Char) : Except String Sequence :=
  .ok { Elements := parseMatches s 0 [] (FindAllStringSubmatchIndex s) }

/-- Methods `Literal.Substitute` and `Variable.Substitute`, writing to the
buffer `w`. -/
def Element.Substitute (element : Element) (w : List Char) (env : Environment) :
    Except String (List Char) :=
  match element with
  | .Literal value => .ok (w ++ value)
  | .Variable v =>
    match env v with
    | .error err => .error err
    | .ok substitution => .ok (w ++ substitution)

/-- The loop of `Sequence.Substitute`. -/
def substituteEach (env : Environment) : List Element → List Char → Except String (List Char)
  | [], w => .ok w
  | element :: rest, w =>
    match element.Substitute w env with
    | .error err => .error err
    | .ok w => substituteEach env rest w

/-- Method `Sequence.Substitute`. -/
def Sequence.Substitute (seq : Sequence) (w : List Char) (env : Environment) :
    Except String (List Char) :=
  substituteEach env seq.Elements w

/-- Function `Substitute`. -/
def Substitute (template : Sequence) (env : Environment) : Except String (List Char) :=
  match Sequence.Substitute template [] env with
  | .error err => .error err
  | .ok buf => .ok buf

/-- The text a template element was parsed from: a literal's value, `$NAME`,
or `${NAME}` with the separator and the default after the name. -/
def Element.source : Element → List Char
  | .Literal value => value
  | .Variable v =>
    if v.Braces then ['$', '{'] ++ v.Name ++ v.Separator ++ v.DefaultOrError ++ ['}']
    else '$' :: v.Name

/-- The text with every escape `$$` that `pattern` matches replaced by one `$`:
`copy` characters of a variable still to be copied, or `drop` set on the
second `$` of an escape. -/
def unescape : Nat → Bool → List Char → List Char
  | _, _, [] => []
  | _, true, _ :: tl => unescape 0 false tl
  | copy + 1, false, c :: tl => c :: unescape copy false tl
  | 0, false, c :: tl =>
    match shapeAt (c :: tl) with
    | some Shape.escape => c :: unescape 0 true tl
    | some shape => c :: unescape (shape.len - 1) false tl
    | none => c :: unescape 0 false tl

/-- A text with each `$` doubled. -/
def escapeDollars : List Char → List Char
  | [] => []
  | c :: tl => if c = '$' then '$' :: '$' :: escapeDollars tl else c :: escapeDollars tl

end template

/-! ## Package `compose`: conversion of a compose file to a manifest -/

namespace compose

/-- Compose volume, with the fields `Convert` uses. -/
structure Volume where
  Name : String
deriving DecidableEq, Repr

/-- Compose network, with the fields `Convert` uses. -/
structure Network where
  Name : String
  Driver : String
deriving DecidableEq, Repr

/-- Reference of a service to a network. -/
structure ServiceNetwork where
  Network : String
deriving DecidableEq, Repr

/-- Volume mount of a service. -/
structure VolumeMount where
  Typ : String
  Source : String
deriving DecidableEq, Repr

/-- Dependency of a service on another. -/
structure ServiceDependency where
  Service : String
  Condition : String
deriving DecidableEq, Repr

/-- Compose service, with the fields `Convert` uses; `Labels` is `none` for the
nil dictionary, and `DependsOn` holds `DependsOn.Services`. -/
structure Service where
  ContainerName : String
  Labels : Option (List (String × String))
  Networks : List ServiceNetwork
  Volumes : List VolumeMount
  DependsOn : List ServiceDependency
  Links : List String
deriving DecidableEq, Repr

/-- Compose project: its three maps, each as the list of its entries in the
order the `range` loop visits them. -/
structure Project where
  Volumes : List (String × Volume)
  Networks : List (String × Network)
  Services : List (String × Service)
deriving DecidableEq, Repr

/-- Severity of a diagnostic. -/
inductive Severity where
  | DiagError
  | DiagWarning
deriving DecidableEq, Repr

/-- Type `hcl.Diagnostic`, with the fields `Convert` sets. -/
structure Diagnostic where
  Severity : Severity
  Summary : String
deriving DecidableEq, Repr

/-- Type `exohcl.Component`. -/
structure Component where
  Name : String
  Typ : String
  Spec : String
  DependsOn : List String
deriving DecidableEq, Repr

/-- What a component block is made from: a volume, a network, the map of the
default network, or a component. -/
inductive BlockSpec where
  | volume (v : Volume)
  | network (n : Network)
  | fields (name : String) (driver : String)
  | component (c : Component)
deriving DecidableEq, Repr

/-- The block `makeComponentBlock(typ, name, spec)` builds. -/
structure Block where
  Typ : String
  Label : String
  Spec : BlockSpec
deriving DecidableEq, Repr

/-- What `Convert` takes from other packages: the compose parser, the name
mangling and the warnings of `exohcl`, the YAML text of a service, and the `%q`
verb on a string and on a network reference. -/
structure Lib where
  Parse : String → Except String Project
  MangleName : String → String
  NewRenameWarning : String → String → Diagnostic
  NewUnsupportedFeatureWarning : String → String → Diagnostic
  MustMarshalString : Service → String
  Quote : String → String
  QuoteNetwork : ServiceNetwork → String

/-- Type `Converter`. -/
structure Converter where
  ProjectName : String
deriving DecidableEq, Repr

/-- Method `Converter.prefixedName`. -/
def Converter.prefixedName (c : Converter) (name : String) (suffix : String) : String :=
  let out := c.ProjectName ++ "_" ++ name
  if suffix ≠ "" then out ++ "_" ++ suffix else out

/-- The parts of a text between the occurrences of a separator. -/
def splitChars (sep : Char) : List Char → List (List Char)
  | [] => [[]]
  | c :: cs =>
    if c = sep then [] :: splitChars sep cs
    else
      match splitChars sep cs with
      | part :: parts => (c :: part) :: parts
      | [] => [[c]]

/-- The call `strings.Split(s, ":")`. -/
def Split (s : String) : List String :=
  (splitChars ':' s.data).map String.mk

/-- The call `strings.HasPrefix(k, "com.docker.compose")`. -/
def hasComposePrefix (k : String) : Bool :=
  "com.docker.compose".data.isPrefixOf k.data

/-- Assignment `m[k] = v` on a map kept as a list of entries. -/
def mapSet (m : List (String × String)) (k v : String) : List (String × String) :=
  (k, v) :: m.filter (fun e => decide (e.1 ≠ k))

/-- Lookup `m[k]` with its `ok`. -/
def mapGet (m : List (String × String)) (k : String) : Option String :=
  (m.find? (fun e => decide (e.1 = k))).map (fun e => e.2)

/-- The loop over the volumes of the project. -/
def convertVolumes (c : Converter) (lib : Lib) :
    List (String × Volume) → List Block → List Diagnostic → List (String × String) →
    List Block × List Diagnostic × List (String × String)
  | [], blocks, diags, volumesByComposeName => (blocks, diags, volumesByComposeName)
  | (originalName, volume) :: rest, blocks, diags, volumesByComposeName =>
    let name := lib.MangleName originalName
    let diags := if originalName ≠ name then diags ++ [lib.NewRenameWarning originalName name]
                 else diags
    let volume : Volume :=
      if volume.Name = "" then { volume with Name := c.prefixedName originalName "" } else volume
    let volumesByComposeName := mapSet volumesByComposeName originalName volume.Name
    convertVolumes c lib rest
      (blocks ++ [{ Typ := "volume", Label := name, Spec := BlockSpec.volume volume }])
      diags volumesByComposeName

/-- The loop over the networks of the project; the last component tells
whether a network named `default` was met. -/
def convertNetworks (c : Converter) (lib : Lib) :
    List (String × Network) → List Block → List Diagnostic → List (String × String) → Bool →
    List Block × List Diagnostic × List (String × String) × Bool
  | [], blocks, diags, networksByComposeName, hasDefaultNetwork =>
    (blocks, diags, networksByComposeName, hasDefaultNetwork)
  | (originalName, network) :: rest, blocks, diags, networksByComposeName, hasDefaultNetwork =>
    let hasDefaultNetwork := if originalName = "default" then true else hasDefaultNetwork
    let name := lib.MangleName originalName
    let diags := if originalName ≠ name then diags ++ [lib.NewRenameWarning originalName name]
                 else diags
    let network : Network :=
      if network.Name = "" then { network with Name := c.prefixedName originalName "" }
      else network
    let networksByComposeName := mapSet networksByComposeName originalName network.Name
    let network : Network :=
      if network.Driver = "" then { network with Driver := "bridge" } else network
    convertNetworks c lib rest
      (blocks ++ [{ Typ := "network", Label := name, Spec := BlockSpec.network network }])
      diags networksByComposeName hasDefaultNetwork

/-- The loop over the networks of a service: the mapped networks, the
dependencies and the diagnostics.  An unknown network leaves the zero value at
its place. -/
def mapNetworks (lib : Lib) (networksByComposeName : List (String × String)) :
    List ServiceNetwork → List ServiceNetwork → List String → List Diagnostic →
    List ServiceNetwork × List String × List Diagnostic
  | [], mappedNetworks, dependsOn, diags => (mappedNetworks, dependsOn, diags)
  | network :: rest, mappedNetworks, dependsOn, diags =>
    match mapGet networksByComposeName network.Network with
    | none =>
      mapNetworks lib networksByComposeName rest (mappedNetworks ++ [{ Network := "" }]) dependsOn
        (diags ++ [{ Severity := Severity.DiagError,
                     Summary := "unknown network: " ++ lib.QuoteNetwork network }])
    | some networkName =>
      mapNetworks lib networksByComposeName rest (mappedNetworks ++ [network])
        (dependsOn ++ [networkName]) diags

/-- The loop over the volume mounts of a service. -/
def mapVolumes (volumesByComposeName : List (String × String)) :
    List VolumeMount → List VolumeMount → List String → List VolumeMount × List String
  | [], volumes, dependsOn => (volumes, dependsOn)
  | volumeMount :: rest, volumes, dependsOn =>
    if volumeMount.Typ ≠ "volume" then
      mapVolumes volumesByComposeName rest (volumes ++ [volumeMount]) dependsOn
    else
      match mapGet volumesByComposeName volumeMount.Source with
      | some volumeName =>
        mapVolumes volumesByComposeName rest
          (volumes ++ [{ volumeMount with Source := volumeName }])
          (dependsOn ++ [volumeMount.Source])
      | none => mapVolumes volumesByComposeName rest (volumes ++ [volumeMount]) dependsOn

/-- The loop over the dependencies of a service. -/
def mapDependencies (lib : Lib) :
    List ServiceDependency → List String → List Diagnostic → List String × List Diagnostic
  | [], dependsOn, diags => (dependsOn, diags)
  | dependency :: rest, dependsOn, diags =>
    let diags :=
      if dependency.Condition ≠ "service_started" then
        diags ++ [lib.NewUnsupportedFeatureWarning
          ("service condition " ++ lib.Quote dependency.Service)
          "only service_started is currently supported"]
      else diags
    mapDependencies lib rest (dependsOn ++ [lib.MangleName dependency.Service]) diags

/-- The loop over the links of a service: the rewritten links and the
dependencies, or the diagnostics with which `Convert` returns. -/
def mapLinks (c : Converter) (lib : Lib) :
    List String → List String → List String → List Diagnostic →
    Except (List Diagnostic) (List String × List String)
  | [], links, dependsOn, _ => .ok (links, dependsOn)
  | link :: rest, links, dependsOn, diags =>
    match Split link with
    | [part] =>
      let linkService := part
      let linkAlias := part
      let mangledServiceName := lib.MangleName linkService
      let containerName := c.prefixedName mangledServiceName "1"
      mapLinks c lib rest (links ++ [containerName ++ ":" ++ linkAlias])
        (dependsOn ++ [mangledServiceName]) diags
    | [part0, part1] =>
      let linkService := part0
      let linkAlias := part1
      let mangledServiceName := lib.MangleName linkService
      let containerName := c.prefixedName mangledServiceName "1"
      mapLinks c lib rest (links ++ [containerName ++ ":" ++ linkAlias])
        (dependsOn ++ [mangledServiceName]) diags
    | _ =>
      .error (diags ++ [{ Severity := Severity.DiagError,
                          Summary := "expected SERVICE or SERVICE:ALIAS for link, but got: "
                            ++ lib.Quote link }])

/-- The body of the loop over the services: the service as it is marshalled,
the dependencies of its component and the diagnostics, or the diagnostics with
which `Convert` returns. -/
def convertService (c : Converter) (lib : Lib)
    (networksByComposeName volumesByComposeName : List (String × String))
    (originalName : String) (service : Service) (diags : List Diagnostic) :
    Except (List Diagnostic) (Service × List String × List Diagnostic) :=
  let name := lib.MangleName originalName
  let diags := if originalName ≠ name then diags ++ [lib.NewRenameWarning originalName name]
               else diags
  let service : Service :=
    if service.ContainerName = "" then
      { service with ContainerName := c.prefixedName originalName "1" }
    else service
  let labels := service.Labels.getD []
  match labels.find? (fun e => hasComposePrefix e.1) with
  | some (k, _) =>
    .error (diags ++ [{ Severity := Severity.DiagError,
                        Summary := "service may not specify labels with prefix "
                          ++ "\"com.docker.compose\", but " ++ lib.Quote originalName
                          ++ " specified " ++ lib.Quote k }])
  | none =>
    let labels := mapSet labels "com.docker.compose.project" c.ProjectName
    let labels := mapSet labels "com.docker.compose.service" originalName
    let service : Service := { service with Labels := some labels }
    let defaultNetworkName := (mapGet networksByComposeName "default").getD ""
    let (networks, dependsOn, diags) :=
      if service.Networks.length > 0 then
        mapNetworks lib networksByComposeName service.Networks [] [] diags
      else
        ([{ Network := defaultNetworkName }], ["default"], diags)
    let service : Service := { service with Networks := networks }
    let (volumes, dependsOn) := mapVolumes volumesByComposeName service.Volumes [] dependsOn
    let service : Service := { service with Volumes := volumes }
    let (dependsOn, diags) := mapDependencies lib service.DependsOn dependsOn diags
    match mapLinks c lib service.Links [] dependsOn diags with
    | .error diags => .error diags
    | .ok (links, dependsOn) =>
      .ok ({ service with Links := links }, dependsOn, diags)

/-- The loop over the services of the project. -/
def convertServices (c : Converter) (lib : Lib)
    (networksByComposeName volumesByComposeName : List (String × String)) :
    List (String × Service) → List Block → List Diagnostic →
    Option (List Block) × List Diagnostic
  | [], blocks, diags => (some blocks, diags)
  | (originalName, service) :: rest, blocks, diags =>
    match convertService c lib networksByComposeName volumesByComposeName originalName service
        diags with
    | .error diags => (none, diags)
    | .ok (service, dependsOn, diags) =>
      let component : Component :=
        { Name := lib.MangleName originalName
          Typ := "container"
          Spec := lib.MustMarshalString service
          DependsOn := dependsOn }
      convertServices c lib networksByComposeName volumesByComposeName rest
        (blocks ++ [{ Typ := "volume", Label := lib.MangleName originalName,
                      Spec := BlockSpec.component component }])
        diags

/-- Method `Converter.Convert`: the blocks of the file it builds, if it builds
one, and the diagnostics. -/
def Converter.Convert (c : Converter) (lib : Lib) (bs : String) :
    Option (List Block) × List Diagnostic :=
  match lib.Parse bs with
  | .error err => (none, [{ Severity := Severity.DiagError, Summary := err }])
  | .ok project =>
    let (blocks, diags, volumesByComposeName) := convertVolumes c lib project.Volumes [] [] []
    let (blocks, diags, networksByComposeName, hasDefaultNetwork) :=
      convertNetworks c lib project.Networks blocks diags [] false
    let (blocks, networksByComposeName) :=
      if !hasDefaultNetwork then
        let componentName := "default"
        let name := c.prefixedName componentName ""
        (blocks ++ [{ Typ := "network", Label := componentName,
                      Spec := BlockSpec.fields name "bridge" }],
         mapSet networksByComposeName componentName name)
      else (blocks, networksByComposeName)
    convertServices c lib networksByComposeName volumesByComposeName project.Services blocks diags

end compose

/-- Libraries for a compose file that parses to `project`: names are mangled by
turning `.` into `-`, and the YAML text of a service is stood for by the list
of its networks and of its links. -/
def sampleLib (project : compose.Project) : compose.Lib :=
  { Parse := fun _ => .ok project
    MangleName := fun s => String.mk (s.data.map (fun c => if c = '.' then '-' else c))
    NewRenameWarning := fun a b =>
      { Severity := compose.Severity.DiagWarning, Summary := "renamed " ++ a ++ " to " ++ b }
    NewUnsupportedFeatureWarning := fun a b =>
      { Severity := compose.Severity.DiagWarning, Summary := a ++ ": " ++ b }
    MustMarshalString := fun s =>
      "networks: " ++ String.join (s.Networks.map (fun n => n.Network ++ ";"))
        ++ " links: " ++ String.join (s.Links.map (fun l => l ++ ";"))
    Quote := fun s => "\"" ++ s ++ "\""
    QuoteNetwork := fun n => "\"" ++ n.Network ++ "\"" }

/-- A service on the network `backend`, linked to `db` and to `my.cache` under
the alias `c`. -/
def webService : compose.Service :=
  { ContainerName := "", Labels := none, Networks := [{ Network := "backend" }], Volumes := [],
    DependsOn := [], Links := ["db", "my.cache:c"] }

/-- A project with the network `backend` and the service `web`. -/
def webProject : compose.Project :=
  { Volumes := [], Networks := [("backend", { Name := "", Driver := "" })],
    Services := [("web", webService)] }

/-- A project whose only service, `db`, lists no network. -/
def quietProject : compose.Project :=
  { Volumes := [], Networks := [],
    Services := [("db", { ContainerName := "", Labels := none, Networks := [], Volumes := [],
                          DependsOn := [], Links := [] })] }

/-- A standard library that joins paths with `/` and quotes with `"`. -/
def sampleSys : fifofum.Sys :=
  { Join := fun a b => a ++ "/" ++ b
    Quote := fun s => "\"" ++ s ++ "\"" }

/-- A file system on which the pipe can be made and opened. -/
def readyFifo : fifofum.FifoHost :=
  { Mkfifo := .ok, OpenFile := .ok () }

/-- A host on which the child starts with pid 42 and exits with status 3, the
wait returning before any signal is observed. -/
def sampleHost : fifofum.Host :=
  { StdoutPipe := .ok ()
    StderrPipe := .ok ()
    Start := .ok 42
    Println := .ok ()
    Wait := .exitError 3
    observed := [fifofum.Step.waitReturns] }

end Exo

/-! ## Helper lemmas -/

namespace Exo

open core

/-- Folding `append` over records, from a non-nil slice, yields the non-nil
slice of the copies in the same order. -/
theorem foldl_append_describe (records : List state.ComponentDescription)
    (acc : List api.ComponentDescription) :
    records.foldl (fun s component => Slice.append s (describe component)) (some acc)
      = some (acc ++ records.map describe) := by
  induction records generalizing acc with
  | nil => simp
  | cons r rest ih =>
    have step : Slice.append (some acc) (describe r) = some (acc ++ [describe r]) := rfl
    simp only [List.foldl, step, ih, List.map, List.append_assoc, List.singleton_append]

/-- Value returned by `Project.DescribeComponents`, in closed form. -/
theorem DescribeComponents_fst (proj : Project) (input : api.DescribeComponentsInput) (w : World) :
    (proj.DescribeComponents input w).1
      = .ok { Components := some ((w.store.filter
          (fun c => decide (c.ProjectID = proj.ID))).map describe) } := by
  simp [Project.DescribeComponents, state.DescribeComponents, World.record,
    foldl_append_describe]

/-! ## Creation -/

/-- C1: when the name is empty, `CreateComponent` returns the `invalid name`
error and the world after the call is the world before it: the store is the
same, no call to the store or to a lifecycle variant has been issued, and no
symbol has been drawn. -/
theorem CreateComponent_empty_name (env : Env) (proj : Project) (typ spec : String) (w : World) :
    (proj.CreateComponent env { Name := "", Typ := typ, Spec := spec } w).1
        = .error ("invalid name: " ++ env.Quote "") ∧
    (proj.CreateComponent env { Name := "", Typ := typ, Spec := spec } w).2 = w ∧
    (proj.CreateComponent env { Name := "", Typ := typ, Spec := spec } w).2.store = w.store ∧
    (proj.CreateComponent env { Name := "", Typ := typ, Spec := spec } w).2.trace = w.trace := by
  simp [Project.CreateComponent, IsValidName]

/-- C2 (evaluation at the diverging input): on the project `other` with an empty
store, creating the process component `web` succeeds and returns `id0`, the
record is filed under the project `default`, and `DescribeComponents` on the
project `other` right afterwards returns the empty list. -/
theorem CreateComponent_other_project_not_listed :
    (Project.CreateComponent sampleEnv ⟨"other"⟩
        { Name := "web", Typ := "process", Spec := "run" } emptyWorld).1 = .ok ⟨"id0"⟩ ∧
    (Project.CreateComponent sampleEnv ⟨"other"⟩
        { Name := "web", Typ := "process", Spec := "run" } emptyWorld).2.store
      = [{ ID := "id0", ProjectID := "default", Name := "web", Typ := "process", Spec := "run",
           State := "pid:id0", Created := "t0", Initialized := some "t1", Disposed := none }] ∧
    (Project.DescribeComponents ⟨"other"⟩ {}
        (Project.CreateComponent sampleEnv ⟨"other"⟩
          { Name := "web", Typ := "process", Spec := "run" } emptyWorld).2).1
      = .ok ⟨some []⟩ := by
  decide

/-- C3: for a valid name, when the store add succeeds and the resolved variant's
Initialize fails with `e`, `CreateComponent` returns `e` unwrapped; the store
afterwards is the store before followed by the new record, which is in the
`Created` state (empty state, `initialized` and `disposed` null); the only
calls issued are the add and the Initialize, so nothing was patched or
removed. -/
theorem CreateComponent_initialize_fails (env : Env) (proj : Project)
    (input : api.CreateComponentInput) (w : World) (sto : state.Store)
    (lifecycle : Lifecycle) (e : String)
    (hname : IsValidName input.Name = true)
    (hadd : state.AddComponent w.store
      { ProjectID := "default", ID := env.Base32 w.syms, Name := input.Name, Typ := input.Typ,
        Spec := input.Spec, Created := env.NowString w.clock } = .ok sto)
    (hres : resolveLifecycle env input.Typ = .ok lifecycle)
    (hinit : lifecycle.Initialize env { ID := env.Base32 w.syms, Spec := input.Spec } = .error e) :
    (proj.CreateComponent env input w).1 = .error e ∧
    (proj.CreateComponent env input w).2.store
      = w.store ++ [{ ID := env.Base32 w.syms, ProjectID := "default", Name := input.Name,
                      Typ := input.Typ, Spec := input.Spec, State := "",
                      Created := env.NowString w.clock, Initialized := none, Disposed := none }] ∧
    (proj.CreateComponent env input w).2.trace
      = w.trace ++
        [Event.storeAdd { ProjectID := "default", ID := env.Base32 w.syms, Name := input.Name,
                          Typ := input.Typ, Spec := input.Spec, Created := env.NowString w.clock },
         Event.lifecycleInit { ID := env.Base32 w.syms, Spec := input.Spec }] := by
  have hsto : sto = w.store ++
      [{ ID := env.Base32 w.syms, ProjectID := "default", Name := input.Name,
         Typ := input.Typ, Spec := input.Spec, State := "",
         Created := env.NowString w.clock, Initialized := none, Disposed := none }] := by
    unfold state.AddComponent at hadd
    split at hadd
    · cases hadd
    · injection hadd with h
      exact h.symm
  simp [Project.CreateComponent, hname, World.record, hadd, hres, hinit, hsto]

/-- Witness for C3: in the empty store, creating the process component `web`
while the supervisor cannot be spawned. -/
theorem CreateComponent_initialize_fails_witness :
    (Project.CreateComponent failingEnv ⟨"default"⟩
        { Name := "web", Typ := "process", Spec := "run" } emptyWorld).1 = .error "spawn failed" ∧
    (Project.CreateComponent failingEnv ⟨"default"⟩
        { Name := "web", Typ := "process", Spec := "run" } emptyWorld).2.store
      = emptyWorld.store ++
        [{ ID := failingEnv.Base32 emptyWorld.syms, ProjectID := "default", Name := "web",
           Typ := "process", Spec := "run", State := "",
           Created := failingEnv.NowString emptyWorld.clock,
           Initialized := none, Disposed := none }] ∧
    (Project.CreateComponent failingEnv ⟨"default"⟩
        { Name := "web", Typ := "process", Spec := "run" } emptyWorld).2.trace
      = emptyWorld.trace ++
        [Event.storeAdd { ProjectID := "default", ID := failingEnv.Base32 emptyWorld.syms,
                          Name := "web", Typ := "process", Spec := "run",
                          Created := failingEnv.NowString emptyWorld.clock },
         Event.lifecycleInit { ID := failingEnv.Base32 emptyWorld.syms, Spec := "run" }] :=
  CreateComponent_initialize_fails failingEnv ⟨"default"⟩
    { Name := "web", Typ := "process", Spec := "run" } emptyWorld
    [{ ID := "id0", ProjectID := "default", Name := "web", Typ := "process", Spec := "run",
       State := "", Created := "t0", Initialized := none, Disposed := none }]
    (Lifecycle.process "/w" "/w/var/proc") "spawn failed"
    (by decide) rfl rfl rfl

/-- On the project `default`, when the drawn id is not
yet in the store, a successful `CreateComponent` is followed by a
`DescribeComponents` that lists exactly one record with the returned id, with
`initialized` set and `disposed` null. -/
theorem CreateComponent_default_listed_once (env : Env) (input : api.CreateComponentInput)
    (w : World) (out : api.CreateComponentOutput) (w' : World)
    (hfresh : ∀ c ∈ w.store, c.ID ≠ env.Base32 w.syms)
    (h : Project.CreateComponent env ⟨"default"⟩ input w = (.ok out, w')) :
    out.ID = env.Base32 w.syms ∧
    ∃ listed, (Project.DescribeComponents ⟨"default"⟩ {} w').1 = .ok ⟨some listed⟩ ∧
      ∃ d, listed.filter (fun x => decide (x.ID = out.ID)) = [d] ∧
        d.Initialized ≠ none ∧ d.Disposed = none := by
  unfold Project.CreateComponent at h
  split at h
  · cases h
  · simp only [World.record] at h
    split at h
    · cases h
    · rename_i sto hadd
      split at h
      · cases h
      · rename_i lifecycle hres
        split at h
        · cases h
        · rename_i output hinit
          split at h
          · cases h
          · rename_i sto2 hpatch
            simp only [Prod.mk.injEq, Outcome.ok.injEq] at h
            obtain ⟨hout, hw⟩ := h
            subst hout hw
            refine ⟨rfl, _, DescribeComponents_fst _ _ _, ?_⟩
            unfold state.AddComponent at hadd
            split at hadd
            · cases hadd
            · injection hadd with hadd
              subst hadd
              unfold state.PatchComponent at hpatch
              split at hpatch
              · injection hpatch with hpatch
                subst hpatch
                refine ⟨describe
                  { ID := env.Base32 w.syms, ProjectID := "default", Name := input.Name,
                    Typ := input.Typ, Spec := input.Spec, State := output.State,
                    Created := env.NowString w.clock,
                    Initialized := some (env.NowString (w.clock + 1)), Disposed := none },
                  ?_, ?_, ?_⟩
                · have hold : (w.store.map (fun c =>
                      if c.ID = env.Base32 w.syms then
                        { c with State := output.State,
                                 Initialized := some (env.NowString (w.clock + 1)) }
                      else c)) = w.store := by
                    conv_rhs => rw [← List.map_id w.store]
                    apply List.map_congr_left
                    intro c hc
                    simp [hfresh c hc]
                  have hnone : ((w.store.filter
                      (fun c => decide (c.ProjectID = "default"))).map describe).filter
                        (fun x => decide (x.ID = env.Base32 w.syms)) = [] := by
                    rw [List.filter_eq_nil_iff]
                    intro d hd
                    simp only [List.mem_map, List.mem_filter] at hd
                    obtain ⟨c, ⟨hc, _⟩, rfl⟩ := hd
                    simpa [describe] using hfresh c hc
                  simp [List.map_append, List.filter_append, hold, hnone, describe]
                · exact fun hnone => nomatch hnone
                · rfl
              · cases hpatch

/-- For a valid name and a type other than `process`,
when the store add succeeds, `CreateComponent` returns the error of the invalid
variant, `unsupported component type: ` followed by the quoted type. -/
theorem CreateComponent_unsupported_type (env : Env) (proj : Project)
    (input : api.CreateComponentInput) (w : World) (sto : state.Store)
    (hname : IsValidName input.Name = true)
    (htyp : input.Typ ≠ "process")
    (hadd : state.AddComponent w.store
      { ProjectID := "default", ID := env.Base32 w.syms, Name := input.Name, Typ := input.Typ,
        Spec := input.Spec, Created := env.NowString w.clock } = .ok sto) :
    (proj.CreateComponent env input w).1
      = .error ("unsupported component type: " ++ env.Quote input.Typ) := by
  simp [Project.CreateComponent, hname, World.record, hadd, resolveLifecycle, htyp,
    Lifecycle.Initialize]

/-- C7 (evaluation at the diverging input): creating the component `job` of the
unsupported type `cron` fails with the text `unsupported component type:
"cron"` and leaves a record of that type in the store; `UpdateComponent` on
that component does not return this text, it panics with `TODO:
UpdateComponent`, as it does on every input. -/
theorem UpdateComponent_unsupported_type_panics :
    (Project.CreateComponent sampleEnv ⟨"default"⟩
        { Name := "job", Typ := "cron", Spec := "run" } emptyWorld).1
      = .error "unsupported component type: \"cron\"" ∧
    ((Project.CreateComponent sampleEnv ⟨"default"⟩
        { Name := "job", Typ := "cron", Spec := "run" } emptyWorld).2.store.map
          (fun c => (c.Name, c.Typ))) = [("job", "cron")] ∧
    (Project.UpdateComponent ⟨"default"⟩ { Name := "job", Spec := "walk" }
        (Project.CreateComponent sampleEnv ⟨"default"⟩
          { Name := "job", Typ := "cron", Spec := "run" } emptyWorld).2).1
      = .panic "TODO: UpdateComponent" ∧
    ∀ (proj : Project) (input : api.UpdateComponentInput) (w : World),
      proj.UpdateComponent input w = (.panic "TODO: UpdateComponent", w) := by
  refine ⟨by decide, by decide, by decide, ?_⟩
  intro proj input w
  rfl

/-! ## Description -/

/-- C8: `DescribeComponents` issues one call, the store's describe for the
project, and leaves the store as it was; when that describe returns `records`
it returns a non-nil list of as many descriptions, in the same order, each
carrying the id, name, type, spec, state, created, initialized and disposed of
the record at its position; a second call right after returns the same value. -/
theorem DescribeComponents_read_only_in_order (proj : Project)
    (input : api.DescribeComponentsInput) (w : World) :
    ∃ records descriptions,
      state.DescribeComponents w.store { ProjectID := proj.ID, Names := none } = .ok ⟨records⟩ ∧
      (proj.DescribeComponents input w).1 = .ok ⟨some descriptions⟩ ∧
      descriptions.length = records.length ∧
      List.Forall₂ (fun d r =>
          d.ID = r.ID ∧ d.Name = r.Name ∧ d.Typ = r.Typ ∧ d.Spec = r.Spec ∧
          d.State = r.State ∧ d.Created = r.Created ∧
          d.Initialized = r.Initialized ∧ d.Disposed = r.Disposed) descriptions records ∧
      (proj.DescribeComponents input w).2.store = w.store ∧
      (proj.DescribeComponents input w).2.trace
        = w.trace ++ [Event.storeDescribe { ProjectID := proj.ID, Names := none }] ∧
      (proj.DescribeComponents input (proj.DescribeComponents input w).2).1
        = (proj.DescribeComponents input w).1 := by
  refine ⟨w.store.filter (fun c => decide (c.ProjectID = proj.ID)), _, ?_,
    DescribeComponents_fst proj input w, by simp, ?_, ?_, ?_, ?_⟩
  · simp [state.DescribeComponents]
  · rw [List.forall₂_map_left_iff, List.forall₂_same]
    intro r _
    simp [describe]
  · simp [Project.DescribeComponents, state.DescribeComponents, World.record]
  · simp [Project.DescribeComponents, state.DescribeComponents, World.record]
  · rw [DescribeComponents_fst, DescribeComponents_fst]
    simp [Project.DescribeComponents, state.DescribeComponents, World.record]

/-! ## Disposal -/

/-- C9 (evaluation at the diverging input): on a store holding the live
component `web`, `DisposeComponent` panics with `TODO: DisposeComponent`; the
record's `disposed` is still null and no Dispose has been invoked.  The same
panic is the result on every input. -/
theorem DisposeComponent_panics :
    (Project.DisposeComponent ⟨"default"⟩ { Name := "web" } liveWorld).1
      = .panic "TODO: DisposeComponent" ∧
    (Project.DisposeComponent ⟨"default"⟩ { Name := "web" } liveWorld).2.store.map
        (fun c => (c.Name, c.Disposed)) = [("web", none)] ∧
    (Project.DisposeComponent ⟨"default"⟩ { Name := "web" } liveWorld).2.trace = [] ∧
    ∀ (proj : Project) (input : api.DisposeComponentInput) (w : World),
      proj.DisposeComponent input w = (.panic "TODO: DisposeComponent", w) := by
  refine ⟨by decide, by decide, by decide, ?_⟩
  intro proj input w
  rfl

/-! ## Variant resolution -/

/-- C10 (evaluation at the diverging input): the type `container` resolves to
the invalid variant, in every environment, and creating the component `db` of
type `container` fails with `unsupported component type: "container"`. -/
theorem resolveLifecycle_container_invalid :
    (∀ env : Env, resolveLifecycle env "container"
      = .ok (Lifecycle.invalid ("unsupported component type: " ++ env.Quote "container"))) ∧
    (Project.CreateComponent sampleEnv ⟨"default"⟩
        { Name := "db", Typ := "container", Spec := "image" } emptyWorld).1
      = .error "unsupported component type: \"container\"" := by
  refine ⟨?_, by decide⟩
  intro env
  simp [resolveLifecycle]

/-! ## Deletion -/

/-- The store's describe returns records of the store. -/
theorem DescribeComponents_mem (sto : state.Store) (input : state.DescribeComponentsInput)
    (records : List state.ComponentDescription)
    (h : state.DescribeComponents sto input = .ok ⟨records⟩) :
    ∀ c ∈ records, c ∈ sto := by
  unfold state.DescribeComponents at h
  injection h with h
  injection h with h
  subst h
  intro c hc
  exact (List.mem_filter.mp hc).1

/-- `DeleteComponent` when the name resolves and Dispose succeeds: the record is
removed after one describe, one Dispose and one remove. -/
theorem DeleteComponent_of_dispose_ok (env : Env) (proj : Project) (name : String) (w : World)
    (c : state.ComponentDescription) (rest : List state.ComponentDescription)
    (lifecycle : Lifecycle) (out : api.DisposeOutput)
    (hdesc : state.DescribeComponents w.store { ProjectID := proj.ID, Names := some [name] }
      = .ok ⟨c :: rest⟩)
    (hres : resolveLifecycle env c.Typ = .ok lifecycle)
    (hdisp : lifecycle.Dispose env { ID := c.ID, State := c.State } = .ok out) :
    proj.DeleteComponent env { Name := name } w
      = (.ok {}, { w with
          store := w.store.filter (fun r => decide (r.ID ≠ c.ID))
          trace := w.trace ++
            [Event.storeDescribe { ProjectID := proj.ID, Names := some [name] },
             Event.lifecycleDispose { ID := c.ID, State := c.State },
             Event.storeRemove { ID := c.ID }] }) := by
  have hmem : c ∈ w.store := DescribeComponents_mem _ _ _ hdesc c (List.mem_cons_self _ _)
  have hrem : state.RemoveComponent w.store { ID := c.ID }
      = .ok (w.store.filter (fun r => decide (r.ID ≠ c.ID))) := by
    unfold state.RemoveComponent
    rw [if_pos]
    simp only [List.any_eq_true, decide_eq_true_eq]
    exact ⟨c, hmem, rfl⟩
  unfold Project.DeleteComponent Project.disposeComponent
  simp only [World.record, hdesc, hres, hdisp, hrem, List.append_assoc, List.cons_append,
    List.nil_append]

/-- `DeleteComponent` when the name resolves and Dispose fails with `e`. -/
theorem DeleteComponent_of_dispose_error (env : Env) (proj : Project) (name : String) (w : World)
    (c : state.ComponentDescription) (rest : List state.ComponentDescription)
    (lifecycle : Lifecycle) (e : String)
    (hdesc : state.DescribeComponents w.store { ProjectID := proj.ID, Names := some [name] }
      = .ok ⟨c :: rest⟩)
    (hres : resolveLifecycle env c.Typ = .ok lifecycle)
    (hdisp : lifecycle.Dispose env { ID := c.ID, State := c.State } = .error e) :
    proj.DeleteComponent env { Name := name } w
      = (.error ("disposing: " ++ e), { w with
          trace := w.trace ++
            [Event.storeDescribe { ProjectID := proj.ID, Names := some [name] },
             Event.lifecycleDispose { ID := c.ID, State := c.State }] }) := by
  unfold Project.DeleteComponent Project.disposeComponent
  simp only [World.record, hdesc, hres, hdisp, List.append_assoc, List.cons_append,
    List.nil_append]

/-- `DeleteComponent` when the variant cannot be resolved: the panic goes
through and nothing is removed. -/
theorem DeleteComponent_of_resolve_panic (env : Env) (proj : Project) (name : String) (w : World)
    (c : state.ComponentDescription) (rest : List state.ComponentDescription) (msg : String)
    (hdesc : state.DescribeComponents w.store { ProjectID := proj.ID, Names := some [name] }
      = .ok ⟨c :: rest⟩)
    (hres : resolveLifecycle env c.Typ = .error msg) :
    proj.DeleteComponent env { Name := name } w
      = (.panic msg, { w with
          trace := w.trace ++
            [Event.storeDescribe { ProjectID := proj.ID, Names := some [name] }] }) := by
  unfold Project.DeleteComponent Project.disposeComponent
  simp only [World.record, hdesc, hres]

/-- `DeleteComponent` when the name does not resolve. -/
theorem DeleteComponent_of_not_found (env : Env) (proj : Project) (name : String) (w : World)
    (hdesc : state.DescribeComponents w.store { ProjectID := proj.ID, Names := some [name] }
      = .ok ⟨[]⟩) :
    proj.DeleteComponent env { Name := name } w
      = (.error ("disposing: " ++ ("no component named " ++ env.Quote name)), { w with
          trace := w.trace ++
            [Event.storeDescribe { ProjectID := proj.ID, Names := some [name] }] }) := by
  unfold Project.DeleteComponent Project.disposeComponent
  simp only [World.record, hdesc]

/-- C4: when `DeleteComponent` returns success, the name resolved to a record
`c`, the store's remove was called for its id, and the store on return is the
store before without the records of that id, all others kept as they were and
in order; a `DescribeComponents` issued right afterwards lists no description
with that id and lists every other record of the project as before. -/
theorem DeleteComponent_success_removes (env : Env) (proj : Project) (name : String)
    (w : World) (out : api.DeleteComponentOutput) (w' : World)
    (h : proj.DeleteComponent env { Name := name } w = (.ok out, w')) :
    ∃ c rest,
      state.DescribeComponents w.store { ProjectID := proj.ID, Names := some [name] }
        = .ok ⟨c :: rest⟩ ∧
      w'.store = w.store.filter (fun r => decide (r.ID ≠ c.ID)) ∧
      (∀ r ∈ w'.store, r.ID ≠ c.ID) ∧
      (∀ r, r.ID ≠ c.ID → (r ∈ w'.store ↔ r ∈ w.store)) ∧
      Event.storeRemove { ID := c.ID } ∈ w'.trace ∧
      ∃ listed, (proj.DescribeComponents {} w').1 = .ok ⟨some listed⟩ ∧
        (∀ d ∈ listed, d.ID ≠ c.ID) ∧
        listed = (((w.store.filter (fun r => decide (r.ProjectID = proj.ID))).filter
          (fun r => decide (r.ID ≠ c.ID))).map describe) := by
  cases hdesc : state.DescribeComponents w.store { ProjectID := proj.ID, Names := some [name] } with
  | error err => simp [state.DescribeComponents] at hdesc
  | ok o =>
    obtain ⟨records⟩ := o
    cases records with
    | nil =>
      rw [DeleteComponent_of_not_found env proj name w hdesc] at h
      simp at h
    | cons c rest =>
      cases hres : resolveLifecycle env c.Typ with
      | error msg =>
        rw [DeleteComponent_of_resolve_panic env proj name w c rest msg hdesc hres] at h
        simp at h
      | ok lifecycle =>
        cases hdisp : lifecycle.Dispose env { ID := c.ID, State := c.State } with
        | error e =>
          rw [DeleteComponent_of_dispose_error env proj name w c rest lifecycle e hdesc hres
            hdisp] at h
          simp at h
        | ok o2 =>
          rw [DeleteComponent_of_dispose_ok env proj name w c rest lifecycle o2 hdesc hres
            hdisp] at h
          simp only [Prod.mk.injEq] at h
          obtain ⟨_, hw⟩ := h
          subst hw
          refine ⟨c, rest, rfl, rfl, ?_, ?_, ?_, _, DescribeComponents_fst _ _ _, ?_, ?_⟩
          · intro r hr
            simpa using (List.mem_filter.mp hr).2
          · intro r hne
            simp [List.mem_filter, hne]
          · simp
          · intro d hd
            simp only [List.mem_map, List.mem_filter] at hd
            obtain ⟨r, ⟨⟨_, hr⟩, _⟩, rfl⟩ := hd
            simpa [describe] using hr
          · simp only [List.filter_filter]
            congr 1
            apply List.filter_congr
            intro x _
            exact Bool.and_comm _ _

/-- Witness for C4: deleting the live component `web`. -/
theorem DeleteComponent_success_removes_witness :
    ∃ c rest,
      state.DescribeComponents liveWorld.store { ProjectID := "default", Names := some ["web"] }
        = .ok ⟨c :: rest⟩ ∧
      (Project.DeleteComponent sampleEnv ⟨"default"⟩ { Name := "web" } liveWorld).2.store
        = liveWorld.store.filter (fun r => decide (r.ID ≠ c.ID)) ∧
      (∀ r ∈ (Project.DeleteComponent sampleEnv ⟨"default"⟩ { Name := "web" } liveWorld).2.store,
        r.ID ≠ c.ID) ∧
      (∀ r, r.ID ≠ c.ID →
        (r ∈ (Project.DeleteComponent sampleEnv ⟨"default"⟩ { Name := "web" } liveWorld).2.store
          ↔ r ∈ liveWorld.store)) ∧
      Event.storeRemove { ID := c.ID }
        ∈ (Project.DeleteComponent sampleEnv ⟨"default"⟩ { Name := "web" } liveWorld).2.trace ∧
      ∃ listed, (Project.DescribeComponents ⟨"default"⟩ {}
          (Project.DeleteComponent sampleEnv ⟨"default"⟩ { Name := "web" } liveWorld).2).1
            = .ok ⟨some listed⟩ ∧
        (∀ d ∈ listed, d.ID ≠ c.ID) ∧
        listed = (((liveWorld.store.filter (fun r => decide (r.ProjectID = "default"))).filter
          (fun r => decide (r.ID ≠ c.ID))).map describe) :=
  DeleteComponent_success_removes sampleEnv ⟨"default"⟩ "web" liveWorld {}
    (Project.DeleteComponent sampleEnv ⟨"default"⟩ { Name := "web" } liveWorld).2 (by decide)

/-- C5: when the name does not resolve, or resolves to a record whose variant's
Dispose fails, `DeleteComponent` returns an error prefixed `disposing: `, the
calls it issued contain no store remove, and the store is the store before the
call, so every record is still present with its `disposed` as it was. -/
theorem DeleteComponent_failure_keeps_store (env : Env) (proj : Project) (name : String)
    (w : World) (msg : String)
    (h : (state.DescribeComponents w.store { ProjectID := proj.ID, Names := some [name] }
            = .ok ⟨[]⟩ ∧ msg = "no component named " ++ env.Quote name) ∨
         ∃ c rest lifecycle,
           state.DescribeComponents w.store { ProjectID := proj.ID, Names := some [name] }
             = .ok ⟨c :: rest⟩ ∧
           resolveLifecycle env c.Typ = .ok lifecycle ∧
           lifecycle.Dispose env { ID := c.ID, State := c.State } = .error msg) :
    (proj.DeleteComponent env { Name := name } w).1 = .error ("disposing: " ++ msg) ∧
    (proj.DeleteComponent env { Name := name } w).2.store = w.store ∧
    (∃ calls, (proj.DeleteComponent env { Name := name } w).2.trace = w.trace ++ calls ∧
      ∀ input, Event.storeRemove input ∉ calls) ∧
    (∀ r ∈ w.store, r.Disposed = none →
      ∃ r' ∈ (proj.DeleteComponent env { Name := name } w).2.store,
        r' = r ∧ r'.Disposed = none) := by
  rcases h with ⟨hdesc, rfl⟩ | ⟨c, rest, lifecycle, hdesc, hres, hdisp⟩
  · rw [DeleteComponent_of_not_found env proj name w hdesc]
    refine ⟨rfl, rfl, ⟨_, rfl, ?_⟩, ?_⟩
    · intro input
      simp
    · intro r hr hd
      exact ⟨r, hr, rfl, hd⟩
  · rw [DeleteComponent_of_dispose_error env proj name w c rest lifecycle msg hdesc hres hdisp]
    refine ⟨rfl, rfl, ⟨_, rfl, ?_⟩, ?_⟩
    · intro input
      simp
    · intro r hr hd
      exact ⟨r, hr, rfl, hd⟩

/-- Witness for C5: deleting the live component `web` while its supervisor
cannot be signalled. -/
theorem DeleteComponent_failure_keeps_store_witness :
    (Project.DeleteComponent failingEnv ⟨"default"⟩ { Name := "web" } liveWorld).1
      = .error ("disposing: " ++ "kill failed") ∧
    (Project.DeleteComponent failingEnv ⟨"default"⟩ { Name := "web" } liveWorld).2.store
      = liveWorld.store ∧
    (∃ calls, (Project.DeleteComponent failingEnv ⟨"default"⟩ { Name := "web" } liveWorld).2.trace
        = liveWorld.trace ++ calls ∧
      ∀ input, Event.storeRemove input ∉ calls) ∧
    (∀ r ∈ liveWorld.store, r.Disposed = none →
      ∃ r' ∈ (Project.DeleteComponent failingEnv ⟨"default"⟩ { Name := "web" } liveWorld).2.store,
        r' = r ∧ r'.Disposed = none) :=
  DeleteComponent_failure_keeps_store failingEnv ⟨"default"⟩ "web" liveWorld "kill failed"
    (Or.inr ⟨processRecord "id0" "web", [], Lifecycle.process "/w" "/w/var/proc",
      rfl, rfl, rfl⟩)

/-! ## Deletion of the whole project -/

/-- The records of a project, as the store's describe lists them. -/
theorem DescribeComponents_all (sto : state.Store) (pid : String) :
    state.DescribeComponents sto { ProjectID := pid, Names := none }
      = .ok ⟨sto.filter (fun c => decide (c.ProjectID = pid))⟩ := by
  simp [state.DescribeComponents]

/-- When the project's records start with `c`, describing by the name of `c`
returns `c` first. -/
theorem DescribeComponents_head (sto : state.Store) (pid : String)
    (c : state.ComponentDescription) (rest : List state.ComponentDescription)
    (h : sto.filter (fun r => decide (r.ProjectID = pid)) = c :: rest) :
    state.DescribeComponents sto { ProjectID := pid, Names := some [c.Name] }
      = .ok ⟨c :: rest.filter (fun r => decide (r.Name ∈ [c.Name]))⟩ := by
  unfold state.DescribeComponents
  have hsplit : sto.filter (fun r => decide (r.ProjectID = pid) && decide (r.Name ∈ [c.Name]))
      = (sto.filter (fun r => decide (r.ProjectID = pid))).filter
          (fun r => decide (r.Name ∈ [c.Name])) := by
    rw [List.filter_filter]
    apply List.filter_congr
    intro x _
    exact Bool.and_comm _ _
  simp only [hsplit, h]
  rw [List.filter_cons_of_pos (by simp)]

/-- In a keyed store, the records listed after the first one of a sublist carry
another id than the first. -/
theorem Keyed_tail_ne (sto : state.Store) (hk : sto.Keyed) (p : state.ComponentDescription → Bool)
    (c : state.ComponentDescription) (rest : List state.ComponentDescription)
    (h : sto.filter p = c :: rest) :
    ∀ r ∈ rest, r.ID ≠ c.ID := by
  have hsub : ((c :: rest).map (fun x => x.ID)).Nodup := by
    rw [← h]
    exact List.Nodup.sublist (List.Sublist.map _ (List.filter_sublist sto)) hk
  simp only [List.map_cons, List.nodup_cons, List.mem_map, not_exists, not_and] at hsub
  intro r hr heq
  exact hsub.1 r hr heq

/-- Removing the first listed record of a project from a keyed store leaves the
remaining records of the project, in order. -/
theorem filter_after_remove (sto : state.Store) (hk : sto.Keyed) (pid : String)
    (c : state.ComponentDescription) (rest : List state.ComponentDescription)
    (h : sto.filter (fun r => decide (r.ProjectID = pid)) = c :: rest) :
    (sto.filter (fun r => decide (r.ID ≠ c.ID))).filter (fun r => decide (r.ProjectID = pid))
      = rest := by
  rw [List.filter_comm, h, List.filter_cons_of_neg (by simp), List.filter_eq_self]
  intro r hr
  simpa using Keyed_tail_ne sto hk _ c rest h r hr

/-- Filtering keeps a store keyed. -/
theorem Keyed_filter (sto : state.Store) (hk : sto.Keyed) (p : state.ComponentDescription → Bool) :
    state.Store.Keyed (sto.filter p) :=
  List.Nodup.sublist (List.Sublist.map _ (List.filter_sublist sto)) hk

/-- The loop of `Project.Delete` over a run of components whose Dispose
succeeds removes them one after the other and goes on with the rest. -/
theorem deleteEach_ok_run (env : Env) (proj : Project)
    (cs : List state.ComponentDescription) (tail : List state.ComponentDescription) (w : World)
    (hk : w.store.Keyed)
    (hlist : w.store.filter (fun r => decide (r.ProjectID = proj.ID)) = cs ++ tail)
    (hok : ∀ c ∈ cs, ∃ lifecycle out, resolveLifecycle env c.Typ = .ok lifecycle ∧
      lifecycle.Dispose env { ID := c.ID, State := c.State } = .ok out) :
    Project.deleteEach env proj (cs ++ tail) w
      = Project.deleteEach env proj tail
          { w with
            store := w.store.filter (fun r => decide (r.ID ∉ cs.map (fun c => c.ID)))
            trace := w.trace ++ deleteCalls proj cs } := by
  induction cs generalizing w with
  | nil =>
    simp [deleteCalls]
  | cons c cs ih =>
    obtain ⟨lifecycle, out, hres, hdisp⟩ := hok c (List.mem_cons_self _ _)
    have hdesc := DescribeComponents_head w.store proj.ID c (cs ++ tail) hlist
    have hdel := DeleteComponent_of_dispose_ok env proj c.Name w c _ lifecycle out hdesc hres hdisp
    have hstep : Project.deleteEach env proj (c :: cs ++ tail) w
        = Project.deleteEach env proj (cs ++ tail)
            { w with
              store := w.store.filter (fun r => decide (r.ID ≠ c.ID))
              trace := w.trace ++
                [Event.storeDescribe { ProjectID := proj.ID, Names := some [c.Name] },
                 Event.lifecycleDispose { ID := c.ID, State := c.State },
                 Event.storeRemove { ID := c.ID }] } := by
      simp only [List.cons_append, Project.deleteEach, hdel]
      rfl
    rw [hstep, ih _ (Keyed_filter _ hk _) (filter_after_remove _ hk _ c _ hlist)
      (fun x hx => hok x (List.mem_cons_of_mem _ hx))]
    congr 1
    simp only [List.filter_filter, deleteCalls, List.append_assoc, List.map_cons,
      List.mem_cons, not_or]
    congr 1
    apply List.filter_congr
    intro x _
    simp only [decide_not, Bool.decide_and]
    exact Bool.and_comm _ _

/-- In a keyed store, a run of listed records and the records listed after it
carry different ids. -/
theorem Keyed_run_disjoint (sto : state.Store) (hk : sto.Keyed)
    (p : state.ComponentDescription → Bool)
    (cs tail : List state.ComponentDescription) (h : sto.filter p = cs ++ tail) :
    ∀ r ∈ tail, r.ID ∉ cs.map (fun c => c.ID) := by
  have hsub : ((cs ++ tail).map (fun x => x.ID)).Nodup := by
    rw [← h]
    exact List.Nodup.sublist (List.Sublist.map _ (List.filter_sublist sto)) hk
  rw [List.map_append, List.nodup_append] at hsub
  intro r hr hmem
  exact hsub.2.2 hmem (List.mem_map_of_mem _ hr)

/-- Removing a run of listed records of a project from a keyed store leaves the
records listed after the run, in order. -/
theorem filter_after_run (sto : state.Store) (hk : sto.Keyed) (pid : String)
    (cs tail : List state.ComponentDescription)
    (h : sto.filter (fun r => decide (r.ProjectID = pid)) = cs ++ tail) :
    (sto.filter (fun r => decide (r.ID ∉ cs.map (fun c => c.ID)))).filter
        (fun r => decide (r.ProjectID = pid)) = tail := by
  have hnil : cs.filter (fun r => decide (r.ID ∉ cs.map (fun c => c.ID))) = [] := by
    rw [List.filter_eq_nil_iff]
    intro c hc
    simpa using ⟨c, hc, rfl⟩
  have hall : tail.filter (fun r => decide (r.ID ∉ cs.map (fun c => c.ID))) = tail := by
    rw [List.filter_eq_self]
    intro r hr
    exact decide_eq_true (Keyed_run_disjoint sto hk _ cs tail h r hr)
  rw [List.filter_comm, h, List.filter_append, hnil, hall, List.nil_append]

/-- A Dispose among the calls of successful deletions is that of one of the
deleted components. -/
theorem dispose_mem_deleteCalls (proj : Project) (cs : List state.ComponentDescription)
    (input : api.DisposeInput) (h : Event.lifecycleDispose input ∈ deleteCalls proj cs) :
    input.ID ∈ cs.map (fun c => c.ID) := by
  induction cs with
  | nil => simp [deleteCalls] at h
  | cons c cs ih =>
    simp only [deleteCalls, List.cons_append, List.nil_append, List.mem_cons,
      Event.lifecycleDispose.injEq, reduceCtorEq, false_or] at h
    rcases h with h | h
    · simp [h]
    · simp [ih h]

/-- A remove among the calls of successful deletions is that of one of the
deleted components. -/
theorem remove_mem_deleteCalls (proj : Project) (cs : List state.ComponentDescription)
    (input : state.RemoveComponentInput) (h : Event.storeRemove input ∈ deleteCalls proj cs) :
    input.ID ∈ cs.map (fun c => c.ID) := by
  induction cs with
  | nil => simp [deleteCalls] at h
  | cons c cs ih =>
    simp only [deleteCalls, List.cons_append, List.nil_append, List.mem_cons,
      Event.storeRemove.injEq, reduceCtorEq, false_or] at h
    rcases h with h | h
    · simp [h]
    · simp [ih h]

/-- `Project.Delete` when the components listed before `ck` dispose and `ck`
does not: outcome and world in closed form. -/
theorem Delete_of_first_failure (env : Env) (proj : Project) (w : World) (hk : w.store.Keyed)
    (before : List state.ComponentDescription) (ck : state.ComponentDescription)
    (after : List state.ComponentDescription) (e : String)
    (hdesc : state.DescribeComponents w.store { ProjectID := proj.ID, Names := none }
      = .ok ⟨before ++ ck :: after⟩)
    (hok : ∀ c ∈ before, ∃ lifecycle out, resolveLifecycle env c.Typ = .ok lifecycle ∧
      lifecycle.Dispose env { ID := c.ID, State := c.State } = .ok out)
    (hfail : ∃ lifecycle, resolveLifecycle env ck.Typ = .ok lifecycle ∧
      lifecycle.Dispose env { ID := ck.ID, State := ck.State } = .error e) :
    proj.Delete env {} w
      = (.error ("deleting " ++ ck.Name ++ ": " ++ ("disposing: " ++ e)),
         { w with
           store := w.store.filter (fun r => decide (r.ID ∉ before.map (fun c => c.ID)))
           trace := w.trace ++
             ([Event.storeDescribe { ProjectID := proj.ID, Names := none }] ++
              deleteCalls proj before ++
              [Event.storeDescribe { ProjectID := proj.ID, Names := some [ck.Name] },
               Event.lifecycleDispose { ID := ck.ID, State := ck.State }]) }) := by
  obtain ⟨lifecycle, hres, hdisp⟩ := hfail
  have hlist : w.store.filter (fun r => decide (r.ProjectID = proj.ID)) = before ++ ck :: after := by
    rw [DescribeComponents_all] at hdesc
    injection hdesc with hdesc
    injection hdesc
  unfold Project.Delete
  simp only [World.record, hdesc]
  rw [deleteEach_ok_run env proj before (ck :: after)
    { w with trace := w.trace ++ [Event.storeDescribe { ProjectID := proj.ID, Names := none }] }
    hk hlist hok]
  have hrest := filter_after_run w.store hk proj.ID before (ck :: after) hlist
  have hdesc1 := DescribeComponents_head _ proj.ID ck after hrest
  simp only [Project.deleteEach]
  rw [DeleteComponent_of_dispose_error env proj ck.Name _ ck _ lifecycle e hdesc1 hres hdisp]
  simp only [List.append_assoc]

/-- `Project.Delete` when every listed component disposes: outcome and world in
closed form. -/
theorem Delete_of_all_ok (env : Env) (proj : Project) (w : World) (hk : w.store.Keyed)
    (all : List state.ComponentDescription)
    (hdesc : state.DescribeComponents w.store { ProjectID := proj.ID, Names := none }
      = .ok ⟨all⟩)
    (hok : ∀ c ∈ all, ∃ lifecycle out, resolveLifecycle env c.Typ = .ok lifecycle ∧
      lifecycle.Dispose env { ID := c.ID, State := c.State } = .ok out) :
    proj.Delete env {} w
      = (.ok {},
         { w with
           store := w.store.filter (fun r => decide (r.ID ∉ all.map (fun c => c.ID)))
           trace := w.trace ++
             ([Event.storeDescribe { ProjectID := proj.ID, Names := none }] ++
              deleteCalls proj all) }) := by
  have hlist : w.store.filter (fun r => decide (r.ProjectID = proj.ID)) = all ++ [] := by
    rw [DescribeComponents_all] at hdesc
    injection hdesc with hdesc
    injection hdesc with hdesc
    rw [hdesc, List.append_nil]
  unfold Project.Delete
  simp only [World.record, hdesc]
  have hrun := deleteEach_ok_run env proj all []
    { w with trace := w.trace ++ [Event.storeDescribe { ProjectID := proj.ID, Names := none }] }
    hk hlist hok
  rw [List.append_nil] at hrun
  rw [hrun]
  simp only [Project.deleteEach, List.append_assoc]

/-- C6: in a keyed store, let the store's describe for the project return
`before ++ ck :: after`.  When Dispose succeeds for every component of `before`
and fails with `e` for `ck`, `Project.Delete` returns the error `deleting <name
of ck>: disposing: e`; the records of `before` are gone from the store, those
of `ck :: after` are still there as they were, every record of the store other
than those of `before` is kept in order, and no Dispose or remove was issued
for a component of `after`.  When Dispose succeeds for every listed component,
`Project.Delete` succeeds and the store holds no record of the project. -/
theorem Delete_sequential (env : Env) (proj : Project) (w : World) (hk : w.store.Keyed) :
    (∀ (before : List state.ComponentDescription) (ck : state.ComponentDescription)
        (after : List state.ComponentDescription) (e : String),
      state.DescribeComponents w.store { ProjectID := proj.ID, Names := none }
        = .ok ⟨before ++ ck :: after⟩ →
      (∀ c ∈ before, ∃ lifecycle out, resolveLifecycle env c.Typ = .ok lifecycle ∧
        lifecycle.Dispose env { ID := c.ID, State := c.State } = .ok out) →
      (∃ lifecycle, resolveLifecycle env ck.Typ = .ok lifecycle ∧
        lifecycle.Dispose env { ID := ck.ID, State := ck.State } = .error e) →
      (proj.Delete env {} w).1
        = .error ("deleting " ++ ck.Name ++ ": " ++ ("disposing: " ++ e)) ∧
      (∀ c ∈ before, c ∉ (proj.Delete env {} w).2.store) ∧
      (∀ c ∈ ck :: after, c ∈ (proj.Delete env {} w).2.store) ∧
      (proj.Delete env {} w).2.store
        = w.store.filter (fun r => decide (r.ID ∉ before.map (fun c => c.ID))) ∧
      ∃ calls, (proj.Delete env {} w).2.trace = w.trace ++ calls ∧
        ∀ c ∈ after, ∀ st, Event.lifecycleDispose { ID := c.ID, State := st } ∉ calls ∧
          Event.storeRemove { ID := c.ID } ∉ calls) ∧
    (∀ (all : List state.ComponentDescription),
      state.DescribeComponents w.store { ProjectID := proj.ID, Names := none } = .ok ⟨all⟩ →
      (∀ c ∈ all, ∃ lifecycle out, resolveLifecycle env c.Typ = .ok lifecycle ∧
        lifecycle.Dispose env { ID := c.ID, State := c.State } = .ok out) →
      (proj.Delete env {} w).1 = .ok {} ∧
      (∀ c ∈ all, c ∉ (proj.Delete env {} w).2.store) ∧
      (proj.Delete env {} w).2.store
        = w.store.filter (fun r => decide (r.ID ∉ all.map (fun c => c.ID))) ∧
      (proj.Delete env {} w).2.store.filter (fun r => decide (r.ProjectID = proj.ID)) = []) := by
  constructor
  · intro before ck after e hdesc hok hfail
    have hlist : w.store.filter (fun r => decide (r.ProjectID = proj.ID))
        = before ++ ck :: after := by
      rw [DescribeComponents_all] at hdesc
      injection hdesc with hdesc
      injection hdesc
    have hdisj := Keyed_run_disjoint w.store hk _ before (ck :: after) hlist
    have hafter := Keyed_tail_ne _ (Keyed_filter w.store hk _) _ ck after
      (filter_after_run w.store hk proj.ID before (ck :: after) hlist)
    rw [Delete_of_first_failure env proj w hk before ck after e hdesc hok hfail]
    refine ⟨rfl, ?_, ?_, rfl, _, rfl, ?_⟩
    · intro c hc hmem
      have := (List.mem_filter.mp hmem).2
      simp only [decide_eq_true_eq] at this
      exact this (List.mem_map_of_mem _ hc)
    · intro c hc
      have hmem : c ∈ w.store := by
        have : c ∈ w.store.filter (fun r => decide (r.ProjectID = proj.ID)) := by
          rw [hlist]
          exact List.mem_append_right _ hc
        exact (List.mem_filter.mp this).1
      exact List.mem_filter.mpr ⟨hmem, decide_eq_true (hdisj c hc)⟩
    · intro c hc st
      have hne : c.ID ≠ ck.ID := hafter c hc
      have hnot : c.ID ∉ before.map (fun c => c.ID) := hdisj c (List.mem_cons_of_mem _ hc)
      constructor
      · intro hmem
        simp only [List.append_assoc, List.mem_append, List.mem_cons, List.mem_singleton,
          reduceCtorEq, false_or, Event.lifecycleDispose.injEq, api.DisposeInput.mk.injEq,
          List.not_mem_nil, or_false] at hmem
        rcases hmem with hmem | hmem
        · exact hnot (dispose_mem_deleteCalls proj before _ hmem)
        · exact hne hmem.1
      · intro hmem
        simp only [List.append_assoc, List.mem_append, List.mem_cons, List.mem_singleton,
          reduceCtorEq, false_or, List.not_mem_nil, or_false] at hmem
        exact hnot (remove_mem_deleteCalls proj before _ hmem)
  · intro all hdesc hok
    have hlist : w.store.filter (fun r => decide (r.ProjectID = proj.ID)) = all ++ [] := by
      rw [DescribeComponents_all] at hdesc
      injection hdesc with hdesc
      injection hdesc with hdesc
      rw [hdesc, List.append_nil]
    rw [Delete_of_all_ok env proj w hk all hdesc hok]
    refine ⟨rfl, ?_, rfl, filter_after_run w.store hk proj.ID all [] hlist⟩
    intro c hc hmem
    have := (List.mem_filter.mp hmem).2
    simp only [decide_eq_true_eq] at this
    exact this (List.mem_map_of_mem _ hc)

/-- Witness for C6: the project `default` holds `web`, `db` and `cache`; the
supervisor of `db` cannot be signalled. -/
theorem Delete_sequential_witness :
    threeWorld.store.Keyed ∧
    (Project.Delete stubbornEnv ⟨"default"⟩ {} threeWorld).1
      = .error ("deleting " ++ "db" ++ ": " ++ ("disposing: " ++ "kill failed")) ∧
    (∀ c ∈ [processRecord "id0" "web"],
      c ∉ (Project.Delete stubbornEnv ⟨"default"⟩ {} threeWorld).2.store) ∧
    (∀ c ∈ [processRecord "id1" "db", processRecord "id2" "cache"],
      c ∈ (Project.Delete stubbornEnv ⟨"default"⟩ {} threeWorld).2.store) ∧
    (Project.Delete stubbornEnv ⟨"default"⟩ {} threeWorld).2.store
      = threeWorld.store.filter
          (fun r => decide (r.ID ∉ [processRecord "id0" "web"].map (fun c => c.ID))) ∧
    ∃ calls, (Project.Delete stubbornEnv ⟨"default"⟩ {} threeWorld).2.trace
        = threeWorld.trace ++ calls ∧
      ∀ c ∈ [processRecord "id2" "cache"], ∀ st,
        Event.lifecycleDispose { ID := c.ID, State := st } ∉ calls ∧
        Event.storeRemove { ID := c.ID } ∉ calls :=
  ⟨by decide,
   (Delete_sequential stubbornEnv ⟨"default"⟩ threeWorld (by decide)).1
     [processRecord "id0" "web"] (processRecord "id1" "db") [processRecord "id2" "cache"]
     "kill failed" rfl
     (by
       intro c hc
       rw [List.mem_singleton] at hc
       subst hc
       exact ⟨Lifecycle.process "/w" "/w/var/proc", {}, rfl, rfl⟩)
     ⟨Lifecycle.process "/w" "/w/var/proc", rfl, rfl⟩⟩

end Exo

/-! ## The supervisor: log proxying -/

namespace Exo

open fifofum

/-- A line without `'\n'` is not cut. -/
theorem cutLine_none (n : Nat) (l : List Byte) (h : newline ∉ l) : cutLine n l = none := by
  induction l generalizing n with
  | nil => cases n <;> rfl
  | cons c cs ih =>
    cases n with
    | zero => rfl
    | succ n =>
      have hc : c ≠ newline := fun hc => h (hc ▸ List.mem_cons_self _ _)
      have hcs : newline ∉ cs := fun hm => h (List.mem_cons_of_mem _ hm)
      simp [cutLine, hc, ih n hcs]

/-- A line shorter than the bound and followed by `'\n'` is cut after it. -/
theorem cutLine_line (n : Nat) (line more : List Byte) (h : newline ∉ line)
    (hlen : line.length < n) :
    cutLine n (line ++ newline :: more) = some (line ++ [newline], more) := by
  induction line generalizing n with
  | nil =>
    cases n with
    | zero => cases hlen
    | succ n => simp [cutLine]
  | cons c cs ih =>
    cases n with
    | zero => cases hlen
    | succ n =>
      have hc : c ≠ newline := fun hc => h (hc ▸ List.mem_cons_self _ _)
      have hcs : newline ∉ cs := fun hm => h (List.mem_cons_of_mem _ hm)
      have hl : cs.length < n := by simpa using hlen
      simp [cutLine, hc, ih n hcs hl]

/-- What is cut is a non-empty start of the bytes, and what is left is shorter. -/
theorem cutLine_some (n : Nat) (l line rest : List Byte) (h : cutLine n l = some (line, rest)) :
    line ≠ [] ∧ rest.length < l.length := by
  induction l generalizing n line with
  | nil => cases n <;> simp [cutLine] at h
  | cons c cs ih =>
    cases n with
    | zero => simp [cutLine] at h
    | succ n =>
      simp only [cutLine] at h
      split at h
      · simp only [Option.some.injEq, Prod.mk.injEq] at h
        obtain ⟨rfl, rfl⟩ := h
        simp
      · split at h
        · rename_i line' rest' hcut
          simp only [Option.some.injEq, Prod.mk.injEq] at h
          obtain ⟨rfl, rfl⟩ := h
          have := (ih n line' hcut).2
          exact ⟨by simp, by simp only [List.length_cons]; omega⟩
        · cases h

/-- `ReadLine` on a line shorter than the buffer and ended by `'\n'`. -/
theorem ReadLine_line (b : Reader) (line more : List Byte) (hrest : b.rest = line ++ newline :: more)
    (h : newline ∉ line) (hlen : line.length < b.size) :
    b.ReadLine = ((stripCR line, false, none), { b with rest := more }) := by
  unfold Reader.ReadLine Reader.ReadSlice
  rw [hrest, cutLine_line b.size line more h hlen]
  by_cases hc : line.getLast? = some carriageReturn <;> simp [stripCR, hc]

/-- `ReadLine` on a last line shorter than the buffer and ended by the end of
the stream. -/
theorem ReadLine_last (b : Reader) (hne : b.rest ≠ []) (h : newline ∉ b.rest)
    (hlen : b.rest.length < b.size) :
    b.ReadLine = ((b.rest, false, none), { b with rest := [] }) := by
  have hlast : b.rest.getLast? ≠ some newline := by
    intro hl
    exact h (List.mem_of_getLast?_eq_some hl)
  unfold Reader.ReadLine Reader.ReadSlice
  rw [cutLine_none b.size b.rest h]
  have hsize : ¬ b.size ≤ b.rest.length := by omega
  have hfin : some b.finError ≠ some ReadError.ErrBufferFull := by
    unfold Reader.finError
    cases b.fin <;> simp
  simp [hsize, hfin, hne, hlast]

/-- `ReadLine` once the stream is exhausted: the error that ends it. -/
theorem ReadLine_end (b : Reader) (hrest : b.rest = []) (hsize : 0 < b.size) :
    b.ReadLine = (([], false, some b.finError), { b with rest := [] }) := by
  have hfin : some b.finError ≠ some ReadError.ErrBufferFull := by
    unfold Reader.finError
    cases b.fin <;> simp
  have hcut : cutLine b.size [] = none := cutLine_none _ _ (by simp)
  have hs : ¬ b.size ≤ 0 := by omega
  unfold Reader.ReadLine Reader.ReadSlice
  rw [hrest, hcut]
  simp [hs, hfin]

/-- The line loop on a stream of short lines: one write per line, in order,
then the return at the end of the stream. -/
theorem pipeLoop_short_lines (child : Option Nat) (name : String)
    (lines : List (List Byte)) (last : List Byte) (fuel : Nat) (b : Reader)
    (hrest : b.rest = (lines.map (fun l => l ++ [newline])).flatten ++ last)
    (hfin : b.fin = none)
    (hlines : ∀ l ∈ lines, newline ∉ l ∧ l.length < b.size)
    (hlast : newline ∉ last ∧ last.length < b.size)
    (hsize : 0 < b.size)
    (hfuel : b.rest.length + 1 ≤ fuel) :
    pipeLoop child name fuel b none
      = ((lines.map (fun l => Effect.write (stripCR l ++ [newline])))
          ++ (if last = [] then [] else [Effect.write (last ++ [newline])]),
         Ending.returned) := by
  induction lines generalizing fuel b with
  | nil =>
    simp only [List.map_nil, List.flatten_nil, List.nil_append] at hrest ⊢
    by_cases hl : last = []
    · subst hl
      obtain ⟨fuel, rfl⟩ : ∃ k, fuel = k + 1 := ⟨fuel - 1, by omega⟩
      have hEOF : b.finError = ReadError.EOF := by simp [Reader.finError, hfin]
      simp [pipeLoop, ReadLine_end b hrest hsize, hEOF]
    · obtain ⟨fuel, rfl⟩ : ∃ k, fuel = k + 2 := by
        have : 0 < last.length := List.length_pos.mpr hl
        exact ⟨fuel - 2, by rw [hrest] at hfuel; omega⟩
      have hne : b.rest ≠ [] := by rw [hrest]; exact hl
      have hEOF : ({ b with rest := [] } : Reader).finError = ReadError.EOF := by
        simp [Reader.finError, hfin]
      have h1 := ReadLine_last b hne (by rw [hrest]; exact hlast.1) (by rw [hrest]; exact hlast.2)
      have h2 := ReadLine_end { b with rest := [] } rfl hsize
      simp [pipeLoop, h1, h2, hEOF, hl, Run.after, hrest]
  | cons l lines ih =>
    obtain ⟨hl, hlen⟩ := hlines l (List.mem_cons_self _ _)
    have hrest' : b.rest = l ++ newline ::
        ((lines.map (fun l => l ++ [newline])).flatten ++ last) := by
      rw [hrest]
      simp
    obtain ⟨fuel, rfl⟩ : ∃ k, fuel = k + 1 := ⟨fuel - 1, by omega⟩
    have hread := ReadLine_line b l _ hrest' hl hlen
    have hfuel' : ({ b with rest := (lines.map (fun l => l ++ [newline])).flatten ++ last }
        : Reader).rest.length + 1 ≤ fuel := by
      rw [hrest'] at hfuel
      simp only [List.length_append, List.length_cons] at hfuel ⊢
      omega
    have hrec := ih fuel
      { b with rest := (lines.map (fun l => l ++ [newline])).flatten ++ last } rfl hfin
      (fun x hx => hlines x (List.mem_cons_of_mem _ hx)) hlast hsize hfuel'
    simp only [pipeLoop, hread]
    simp [hrec, Run.after]

/-- The records written by a run that starts with other effects than writes. -/
theorem writes_after_setup (path1 path2 : String) (r : Run) :
    writes (Run.after [Effect.mkfifo path1] (Run.after [Effect.openFifo path2] r)) = writes r := by
  simp [writes, Run.after]

/-- The records written by a run made of writes. -/
theorem writes_of_writes (records : List (List Byte)) (e : Ending) :
    writes (records.map Effect.write, e) = records := by
  induction records with
  | nil => rfl
  | cons r rs ih =>
    simp only [writes, List.map_cons, List.filterMap_cons] at ih ⊢
    rw [ih]

/-- `pipeToFifo` once the pipe is made, or was there, and is open. -/
theorem pipeToFifo_ready (sys : Sys) (child : Option Nat) (varDir : String) (M : Nat)
    (host : FifoHost) (name : String) (data : List Byte) (fin : Option String)
    (hmk : ∀ err, host.Mkfifo ≠ MkfifoResult.failed err) (hopen : host.OpenFile = .ok ()) :
    pipeToFifo sys child varDir M host name data fin
      = Run.after [Effect.mkfifo (sys.Join varDir name)]
          (Run.after [Effect.openFifo (sys.Join varDir name)]
            (pipeLoop child name (data.length + 1) (NewReaderSize data fin M) none)) := by
  unfold pipeToFifo
  cases hm : host.Mkfifo with
  | failed err => exact absurd hm (hmk err)
  | ok => simp [hopen]
  | exist err => simp [hopen]

/-- The buffer made by `NewReaderSize` is at least as long as asked, and at
least 16 bytes long. -/
theorem NewReaderSize_size (data : List Byte) (fin : Option String) (M : Nat) :
    M ≤ (NewReaderSize data fin M).size ∧ 16 ≤ (NewReaderSize data fin M).size := by
  unfold NewReaderSize
  by_cases h : M < 16 <;> simp [h] <;> omega

/-- The end of the stream inside a line that was too long, the case that C11
as amended leaves out: with a maximum of 16 bytes, a stream made of one
unterminated line of 32 bytes is read to its end and nothing is written to the
pipe, while an unterminated line of 20 bytes gives the record of its first 16
bytes and `'\n'`; the line of 32 bytes followed by `'\n'` and by the line `b`
gives the record of its first 16 bytes and `'\n'`, then the record `b` and
`'\n'`. -/
theorem pipeToFifo_drops_long_last_line :
    writes (pipeToFifo sampleSys (some 42) "/v" 16 readyFifo "out"
        (List.replicate 32 97) none) = [] ∧
    (pipeToFifo sampleSys (some 42) "/v" 16 readyFifo "out"
        (List.replicate 32 97) none).2 = Ending.returned ∧
    writes (pipeToFifo sampleSys (some 42) "/v" 16 readyFifo "out"
        (List.replicate 20 97) none) = [List.replicate 16 97 ++ [newline]] ∧
    writes (pipeToFifo sampleSys (some 42) "/v" 16 readyFifo "out"
        (List.replicate 32 97 ++ [newline] ++ [98, newline]) none)
      = [List.replicate 16 97 ++ [newline], [98, newline]] := by
  decide

/-- C12 (as stated, refuted): with a maximum of 16 bytes, the stream `hi\r\n`
is one line of three bytes ended by `'\n'`; the record written is `hi\n`,
which is not the line followed by `'\n'`, and the records together are not
the stream. -/
theorem pipeToFifo_crlf_not_verbatim :
    writes (pipeToFifo sampleSys (some 42) "/v" 16 readyFifo "out"
        ([104, 105, carriageReturn] ++ [newline]) none) = [[104, 105, newline]] ∧
    writes (pipeToFifo sampleSys (some 42) "/v" 16 readyFifo "out"
        ([104, 105, carriageReturn] ++ [newline]) none)
      ≠ [[104, 105, carriageReturn] ++ [newline]] ∧
    (writes (pipeToFifo sampleSys (some 42) "/v" 16 readyFifo "out"
        ([104, 105, carriageReturn] ++ [newline]) none)).flatten
      ≠ [104, 105, carriageReturn] ++ [newline] := by
  decide

/-- C12 (as amended): when the pipe is ready and the stream is made of lines
shorter than the maximum, each ended by `'\n'`, and possibly of a last line
ended by the end of the stream, `pipeToFifo` writes one record per line, in
order: the bytes of the line, without its final `'\r'` when it is ended by
`"\r\n"`, followed by one `'\n'`; then it returns.  When no line ends in
`'\r'` and the last line is ended by `'\n'`, the records together are the
stream byte for byte. -/
theorem pipeToFifo_short_lines (sys : Sys) (child : Option Nat) (varDir : String) (M : Nat)
    (host : FifoHost) (name : String) (lines : List (List Byte)) (last : List Byte)
    (hmk : ∀ err, host.Mkfifo ≠ MkfifoResult.failed err) (hopen : host.OpenFile = .ok ())
    (hlines : ∀ l ∈ lines, newline ∉ l ∧ l.length < M)
    (hlast : newline ∉ last ∧ last.length < M) :
    writes (pipeToFifo sys child varDir M host name
        ((lines.map (fun l => l ++ [newline])).flatten ++ last) none)
      = lines.map (fun l => stripCR l ++ [newline])
          ++ (if last = [] then [] else [last ++ [newline]]) ∧
    (pipeToFifo sys child varDir M host name
        ((lines.map (fun l => l ++ [newline])).flatten ++ last) none).2 = Ending.returned ∧
    ((∀ l ∈ lines, l.getLast? ≠ some carriageReturn) → last = [] →
      (writes (pipeToFifo sys child varDir M host name
        ((lines.map (fun l => l ++ [newline])).flatten ++ last) none)).flatten
        = (lines.map (fun l => l ++ [newline])).flatten ++ last) := by
  have hsz := NewReaderSize_size ((lines.map (fun l => l ++ [newline])).flatten ++ last) none M
  have hloop := pipeLoop_short_lines child name lines last
    (((lines.map (fun l => l ++ [newline])).flatten ++ last).length + 1)
    (NewReaderSize ((lines.map (fun l => l ++ [newline])).flatten ++ last) none M)
    rfl rfl
    (fun l hl => ⟨(hlines l hl).1, by have := (hlines l hl).2; omega⟩)
    ⟨hlast.1, by have := hlast.2; omega⟩ (by omega) (Nat.le_refl _)
  have hw : writes (pipeToFifo sys child varDir M host name
      ((lines.map (fun l => l ++ [newline])).flatten ++ last) none)
      = lines.map (fun l => stripCR l ++ [newline])
          ++ (if last = [] then [] else [last ++ [newline]]) := by
    rw [pipeToFifo_ready sys child varDir M host name _ none hmk hopen, writes_after_setup, hloop]
    have hform : (lines.map (fun l => Effect.write (stripCR l ++ [newline])))
          ++ (if last = [] then [] else [Effect.write (last ++ [newline])])
        = (lines.map (fun l => stripCR l ++ [newline])
          ++ (if last = [] then [] else [last ++ [newline]])).map Effect.write := by
      by_cases hl : last = [] <;> simp [hl]
    rw [hform, writes_of_writes]
  refine ⟨hw, ?_, ?_⟩
  · rw [pipeToFifo_ready sys child varDir M host name _ none hmk hopen, hloop]
    rfl
  · intro hcr hl
    rw [hw, hl]
    simp only [if_true, List.append_nil]
    congr 1
    apply List.map_congr_left
    intro l hmem
    simp [stripCR, hcr l hmem]

/-- Witness for C12: `echo hello`, then a line ended by `"\r\n"`. -/
theorem pipeToFifo_short_lines_witness :
    writes (pipeToFifo sampleSys (some 42) "/v" 16 readyFifo "out"
        (([[104, 101, 108, 108, 111], [104, 105, carriageReturn]].map
          (fun l => l ++ [newline])).flatten ++ []) none)
      = [[104, 101, 108, 108, 111], [104, 105, carriageReturn]].map
          (fun l => stripCR l ++ [newline])
          ++ (if ([] : List Byte) = [] then [] else [[] ++ [newline]]) ∧
    (pipeToFifo sampleSys (some 42) "/v" 16 readyFifo "out"
        (([[104, 101, 108, 108, 111], [104, 105, carriageReturn]].map
          (fun l => l ++ [newline])).flatten ++ []) none).2 = Ending.returned ∧
    ((∀ l ∈ [[104, 101, 108, 108, 111], [104, 105, carriageReturn]],
        l.getLast? ≠ some carriageReturn) → ([] : List Byte) = [] →
      (writes (pipeToFifo sampleSys (some 42) "/v" 16 readyFifo "out"
        (([[104, 101, 108, 108, 111], [104, 105, carriageReturn]].map
          (fun l => l ++ [newline])).flatten ++ []) none)).flatten
        = ([[104, 101, 108, 108, 111], [104, 105, carriageReturn]].map
          (fun l => l ++ [newline])).flatten ++ []) :=
  pipeToFifo_short_lines sampleSys (some 42) "/v" 16 readyFifo "out"
    [[104, 101, 108, 108, 111], [104, 105, carriageReturn]] []
    (fun _ h => MkfifoResult.noConfusion h) rfl (by decide) (by decide)

end Exo

/-! ## The supervisor: failures, start-up and exit -/

namespace Exo

open fifofum

/-- A `ReadLine` either returns bytes and leaves a shorter stream, or reports
the error that ends the stream, with no bytes, once the stream is exhausted. -/
theorem ReadLine_progress (b : Reader) (hsize : 2 ≤ b.size) :
    b.ReadLine.2.size = b.size ∧ b.ReadLine.2.fin = b.fin ∧
    ((b.ReadLine.1.2.2 = none ∧ b.ReadLine.2.rest.length < b.rest.length) ∨
     (b.ReadLine.1.2.2 = some b.finError ∧ b.rest = [])) := by
  have hfin : some b.finError ≠ some ReadError.ErrBufferFull := by
    unfold Reader.finError
    cases b.fin <;> simp
  unfold Reader.ReadLine Reader.ReadSlice
  cases hcut : cutLine b.size b.rest with
  | some p =>
    obtain ⟨line, rest⟩ := p
    obtain ⟨hne, hlt⟩ := cutLine_some b.size b.rest line rest hcut
    simp only [reduceCtorEq, if_false, hne]
    split <;> [split; skip] <;> simp [hlt]
  | none =>
    by_cases hfull : b.size ≤ b.rest.length
    · simp only [hfull, if_true]
      split
      · simp only [List.length_cons, List.length_drop, true_and]
        left
        omega
      · simp only [List.length_drop, true_and]
        left
        omega
    · simp only [hfull, if_false, hfin]
      by_cases hnil : b.rest = []
      · simp [hnil]
      · have hpos : 0 < b.rest.length := List.length_pos.mpr hnil
        simp only [hnil, if_false]
        split <;> [split; skip] <;> simp [hpos]

/-- On a stream that ends with a read error, the loops of `pipeToFifo` write
some records and then end in `fatalf` with the error. -/
theorem pipeLoop_read_error (child : Option Nat) (name e : String) (fuel : Nat) (b : Reader)
    (saved : Option (List Byte)) (hfin : b.fin = some e) (hsize : 2 ≤ b.size)
    (hfuel : b.rest.length + 1 ≤ fuel) :
    ∃ records : List (List Byte), pipeLoop child name fuel b saved
      = Run.after (records.map Effect.write)
          (fatalf child ("reading " ++ name ++ ": " ++ e)) := by
  induction fuel generalizing b saved with
  | zero => omega
  | succ fuel ih =>
    obtain ⟨hs, hf, hcase⟩ := ReadLine_progress b hsize
    unfold pipeLoop
    generalize b.ReadLine = r at hs hf hcase
    obtain ⟨⟨line, isPrefix, err⟩, b1⟩ := r
    simp only at hs hf hcase ⊢
    rcases hcase with ⟨herr, hlt⟩ | ⟨herr, _⟩
    · subst herr
      simp only [reduceCtorEq, if_false]
      cases isPrefix with
      | true =>
        simp only [if_true]
        exact ih b1 _ (hf.trans hfin) (hs ▸ hsize) (by omega)
      | false =>
        obtain ⟨records, hrec⟩ := ih b1 none (hf.trans hfin) (hs ▸ hsize) (by omega)
        simp only [Bool.false_eq_true, if_false, hrec]
        exact ⟨(saved.getD line ++ [newline]) :: records, by cases saved <;> simp [Run.after]⟩
    · have herr' : err = some (ReadError.other e) := by
        rw [herr]
        simp [Reader.finError, hfin]
      subst herr'
      simp only [Option.some.injEq, reduceCtorEq, if_false]
      exact ⟨[], by simp [Run.after, ReadError.text]⟩

/-- C13 (evaluation at the diverging input): the child runs with pid 42 and
exits with status 3.  When the return of the wait is observed first, the
supervisor exits with 3; when the death notification is observed first, the
handler exits with 1, and so it does for a child that exits with 0; in
general the handler ends the process with status 1 whatever the wait would
return. -/
theorem Main_sigchld_first_exits_one :
    (Main sampleHost "fifofum" ["/v", "prog"]).2 = Ending.exit 3 ∧
    (Main { sampleHost with observed := [Step.signal Signal.SIGCHLD, Step.waitReturns] }
        "fifofum" ["/v", "prog"]).2 = Ending.exit 1 ∧
    (Main { sampleHost with
            Wait := WaitResult.success
            observed := [Step.signal Signal.SIGCHLD, Step.waitReturns] }
        "fifofum" ["/v", "prog"]).2 = Ending.exit 1 ∧
    ∀ (pid : Nat) (wait : WaitResult) (rest : List Step),
      supervise pid wait (Step.signal Signal.SIGCHLD :: rest) = ([], Ending.exit 1) := by
  refine ⟨by decide, by decide, by decide, ?_⟩
  intro pid wait rest
  rfl

/-- C14: with fewer than two arguments `Main` reports its usage on standard
error and exits with status 1, and when the program cannot be started it
reports the error and exits with status 1; in both cases nothing is written
to standard output.  When the program starts with pid `pid`, what `Main` does
next is to write the decimal pid and a newline to standard output: that is
its first write there, and the signal notification and the three goroutines
come after it. -/
theorem Main_startup (host : Host) (command : String) :
    (∀ args : List String, args.length < 2 →
      Main host command args = ([Effect.stderr (usage command)], Ending.exit 1) ∧
      (∀ text, Effect.stdout text ∉ (Main host command args).1) ∧
      (Main host command args).2 ≠ Ending.exit 0) ∧
    (∀ (varDir program : String) (arguments : List String) (err : String),
      host.StdoutPipe = .ok () → host.StderrPipe = .ok () → host.Start = .error err →
      Main host command (varDir :: program :: arguments)
        = ([Effect.start program arguments, Effect.stderr err], Ending.exit 1) ∧
      (∀ text, Effect.stdout text ∉ (Main host command (varDir :: program :: arguments)).1) ∧
      (Main host command (varDir :: program :: arguments)).2 ≠ Ending.exit 0) ∧
    (∀ (varDir program : String) (arguments : List String) (pid : Nat),
      host.StdoutPipe = .ok () → host.StderrPipe = .ok () → host.Start = .ok pid →
      ∃ later, (Main host command (varDir :: program :: arguments)).1
          = [Effect.start program arguments, Effect.stdout (toString pid ++ "\n")] ++ later ∧
        (host.Println = .ok () →
          later = [Effect.notify, Effect.spawn "signals", Effect.spawn "out", Effect.spawn "err"]
            ++ (supervise pid host.Wait host.observed).1)) := by
  refine ⟨?_, ?_, ?_⟩
  · intro args hlen
    have hmain : Main host command args = ([Effect.stderr (usage command)], Ending.exit 1) := by
      match args, hlen with
      | [], _ => rfl
      | [_], _ => rfl
      | _ :: _ :: _, h => exact absurd h (by simp)
    rw [hmain]
    exact ⟨rfl, by simp, by simp⟩
  · intro varDir program arguments err hout herr hstart
    have hmain : Main host command (varDir :: program :: arguments)
        = ([Effect.start program arguments, Effect.stderr err], Ending.exit 1) := by
      simp [Main, hout, herr, hstart, fatalf, Fatalf, Run.after]
    rw [hmain]
    exact ⟨rfl, by simp, by simp⟩
  · intro varDir program arguments pid hout herr hstart
    cases hprint : host.Println with
    | error e =>
      exact ⟨[Effect.kill pid, Effect.stderr ("reporting pid: " ++ e)],
        by simp [Main, hout, herr, hstart, hprint, fatalf, Fatalf, Run.after],
        fun h => by cases h⟩
    | ok u =>
      exact ⟨[Effect.notify, Effect.spawn "signals", Effect.spawn "out", Effect.spawn "err"]
            ++ (supervise pid host.Wait host.observed).1,
        by simp [Main, hout, herr, hstart, hprint, Run.after],
        fun _ => rfl⟩

/-- Witness for C14: no argument at all, a program that cannot be started, and
a program started with pid 42. -/
theorem Main_startup_witness :
    (Main sampleHost "fifofum" []).1 = [Effect.stderr (usage "fifofum")] ∧
    Main { sampleHost with Start := .error "exec: not found" } "fifofum" ["/v", "prog"]
      = ([Effect.start "prog" [], Effect.stderr "exec: not found"], Ending.exit 1) ∧
    ∃ later, (Main sampleHost "fifofum" ["/v", "prog", "arg"]).1
      = [Effect.start "prog" ["arg"], Effect.stdout (toString 42 ++ "\n")] ++ later :=
  ⟨congrArg Prod.fst (((Main_startup sampleHost "fifofum").1 [] (by decide)).1),
   (((Main_startup { sampleHost with Start := .error "exec: not found" } "fifofum").2.1
      "/v" "prog" [] "exec: not found" rfl rfl rfl).1),
   (((Main_startup sampleHost "fifofum").2.2 "/v" "prog" ["arg"] 42 rfl rfl rfl).imp
      (fun _ h => h.1))⟩

end Exo

/-! ## Templates: parsing and substitution -/

namespace Exo

open template

/-- Nothing matches at a character other than `$`. -/
theorem shapeAt_ne_dollar (c : Char) (tl : List Char) (h : c ≠ '$') : shapeAt (c :: tl) = none := by
  cases tl with
  | nil => rfl
  | cons d tl => simp [shapeAt, h]

/-- On a text without `$` the only match is the empty one at its end. -/
theorem scan_no_dollar (p : Nat) (abut : Bool) (rest : List Char) (h : '$' ∉ rest) :
    scan p 0 abut rest
      = if rest = [] then (if abut then [] else [endMatch p]) else [endMatch (p + rest.length)] := by
  induction rest generalizing p abut with
  | nil => simp [scan]
  | cons c tl ih =>
    have hc : c ≠ '$' := fun hc => h (hc ▸ List.mem_cons_self _ _)
    have htl : '$' ∉ tl := fun hm => h (List.mem_cons_of_mem _ hm)
    simp only [scan, shapeAt_ne_dollar c tl hc, ih (p + 1) false htl]
    by_cases hnil : tl = []
    · simp [hnil]
    · simp only [hnil, if_false, reduceCtorEq, List.length_cons]
      congr 2
      omega

/-- The slice from 0 to the length is the whole text. -/
theorem slice_all (s : List Char) : template.slice s 0 (s.length : Nat) = s := by
  simp [template.slice]

/-- C18: for a text `s` without `$`, `Parse` returns no error but the sequence
made of the one literal `s`, or of nothing when `s` is empty, in which no
variable occurs; `Substitute` on it returns `s`, whatever the environment. -/
theorem Parse_plain_text (s : List Char) (h : '$' ∉ s) :
    Parse s = .ok { Elements := if s = [] then [] else [Element.Literal s] } ∧
    ∀ env : Environment,
      Substitute { Elements := if s = [] then [] else [Element.Literal s] } env = .ok s := by
  constructor
  · unfold Parse FindAllStringSubmatchIndex
    rw [scan_no_dollar 0 false s h]
    by_cases hnil : s = []
    · subst hnil
      simp [parseMatches, endMatch, entry]
    · have hpos : 0 < s.length := List.length_pos.mpr hnil
      have hs := slice_all s
      simp only [hnil, if_false, Nat.zero_add, Bool.false_eq_true]
      simp [parseMatches, endMatch, entry, hpos, hs]
  · intro env
    by_cases hnil : s = []
    · subst hnil
      rfl
    · simp [hnil, Substitute, Sequence.Substitute, substituteEach, Element.Substitute]

/-- Witness for C18: the text `plain text`. -/
theorem Parse_plain_text_witness :
    Parse "plain text".toList
      = .ok { Elements := if "plain text".toList = [] then []
                          else [Element.Literal "plain text".toList] } ∧
    ∀ env : Environment,
      Substitute { Elements := if "plain text".toList = [] then []
                               else [Element.Literal "plain text".toList] } env
        = .ok "plain text".toList :=
  Parse_plain_text "plain text".toList (by decide)

end Exo

namespace Exo

open template

/-- The separator is part of the text it is matched in. -/
theorem sepLen_le (l : List Char) : sepLen l ≤ l.length := by
  unfold sepLen
  split
  · split <;> [split; split] <;> simp
  · split <;> simp
  · simp

/-- What a match at the head of a text says about the text: its parts, in
order, with their lengths. -/
theorem shapeAt_some (rest : List Char) : ∀ sh : Shape, shapeAt rest = some sh →
    match sh with
    | Shape.escape => ∃ more, rest = '$' :: '$' :: more
    | Shape.plain n => ∃ name more, rest = '$' :: name ++ more ∧ name.length = n
    | Shape.braced n none =>
      ∃ name more, rest = '$' :: '{' :: name ++ '}' :: more ∧ name.length = n
    | Shape.braced n (some (k, d)) =>
      ∃ name sep dflt more, rest = '$' :: '{' :: name ++ sep ++ dflt ++ '}' :: more ∧
        name.length = n ∧ sep.length = k ∧ dflt.length = d := by
  intro sh h
  match rest, h with
  | [], h => simp [shapeAt] at h
  | [_], h => simp [shapeAt] at h
  | c0 :: c :: tl, h =>
    simp only [shapeAt] at h
    by_cases h0 : c0 = '$'
    swap
    · simp [h0] at h
    subst h0
    simp only [ne_eq, not_true_eq_false, if_false] at h
    by_cases h1 : c = '$'
    · subst h1
      simp only [if_true, Option.some.injEq] at h
      subst h
      exact ⟨tl, rfl⟩
    simp only [h1, if_false] at h
    by_cases h2 : isNameStart c = true
    · simp only [h2, if_true, Option.some.injEq] at h
      subst h
      refine ⟨c :: tl.takeWhile isNameChar, tl.dropWhile isNameChar, ?_, ?_⟩
      · simp [List.takeWhile_append_dropWhile]
      · simp [Nat.add_comm]
    simp only [h2, Bool.false_eq_true, if_false] at h
    by_cases h3 : c = '{'
    swap
    · simp [h3] at h
    subst h3
    simp only [if_true] at h
    match tl, h with
    | [], h => simp at h
    | d :: tl2, h =>
      simp only at h
      by_cases h4 : isNameStart d = true
      swap
      · simp [h4] at h
      simp only [h4, if_true] at h
      have hname : tl2 = tl2.takeWhile isNameChar ++ tl2.dropWhile isNameChar :=
        (List.takeWhile_append_dropWhile _ _).symm
      generalize hafter : tl2.dropWhile isNameChar = after at h hname
      generalize hnm : tl2.takeWhile isNameChar = nm at h hname
      cases hk : sepLen after with
      | zero =>
        simp only [hk] at h
        match after, h with
        | [], h => simp at h
        | e :: more, h =>
          simp only at h
          by_cases he : e = '}'
          swap
          · simp [he] at h
          subst he
          simp only [if_true, Option.some.injEq] at h
          subst h
          refine ⟨d :: nm, more, ?_, ?_⟩
          · rw [hname]
            simp
          · simp [Nat.add_comm]
      | succ k =>
        simp only [hk] at h
        have hle : k + 1 ≤ after.length := hk ▸ sepLen_le after
        have hbody : after.drop (k + 1)
            = (after.drop (k + 1)).takeWhile notClose
              ++ (after.drop (k + 1)).dropWhile notClose :=
          (List.takeWhile_append_dropWhile _ _).symm
        generalize hdf : (after.drop (k + 1)).takeWhile notClose = dflt
          at h hbody
        cases htail : (after.drop (k + 1)).dropWhile notClose with
        | nil => simp [htail] at h
        | cons x more =>
          have hx : x = '}' := by
            have hne : (after.drop (k + 1)).dropWhile notClose ≠ [] := by
              rw [htail]
              simp
            have := List.head_dropWhile_not notClose (after.drop (k + 1)) hne
            simp only [htail, List.head_cons] at this
            simpa [notClose] using this
          subst hx
          simp only [htail, Option.some.injEq] at h
          subst h
          refine ⟨d :: nm, after.take (k + 1), dflt, more, ?_, ?_, ?_, rfl⟩
          · rw [hname]
            have hsplit : after = after.take (k + 1) ++ after.drop (k + 1) :=
              (List.take_append_drop _ _).symm
            rw [htail] at hbody
            conv_lhs => rw [hsplit, hbody]
            simp
          · simp [Nat.add_comm]
          · simp [List.length_take, hle]

end Exo

namespace Exo

open template

/-- The slice of a text over one of its parts. -/
theorem slice_part (s u x v : List Char) (i j : Nat) (hs : s = u ++ x ++ v)
    (hi : i = u.length) (hj : j = u.length + x.length) :
    template.slice s (i : Int) (j : Int) = x := by
  subst hs hi hj
  unfold template.slice
  rw [Int.toNat_ofNat, Int.toNat_ofNat, List.append_assoc, List.drop_left,
    Nat.add_sub_cancel_left, List.take_left]

/-- The character of a text right after one of its parts. -/
theorem get_after_part (s u v : List Char) (c : Char) (i : Nat) (hs : s = u ++ c :: v)
    (hi : i = u.length) : s.get? i = some c := by
  subst hs hi
  rw [List.get?_eq_getElem?, List.getElem?_append_right (Nat.le_refl _)]
  simp

/-- Skipping the rest of a match. -/
theorem scan_skip (k : Nat) (rest : List Char) (p : Nat) (h : k ≤ rest.length) :
    scan p k true rest = scan (p + k) 0 true (rest.drop k) := by
  induction k generalizing rest p with
  | zero => rfl
  | succ k ih =>
    match rest, h with
    | c :: tl, h =>
      simp only [scan, List.drop_succ_cons]
      rw [ih tl (p + 1) (by simpa using h)]
      congr 1
      omega

/-- Copying the rest of a variable. -/
theorem unescape_copy (k : Nat) (rest : List Char) (h : k ≤ rest.length) :
    unescape k false rest = rest.take k ++ unescape 0 false (rest.drop k) := by
  induction k generalizing rest with
  | zero => rfl
  | succ k ih =>
    match rest, h with
    | c :: tl, h =>
      simp only [unescape, List.drop_succ_cons, List.take_succ_cons, List.cons_append]
      rw [ih tl (by simpa using h)]

/-- The loop of `Parse` at the empty match that ends the text. -/
theorem parseMatches_end (s : List Char) (left : Int) (elements : List Element) (p : Nat)
    (later : List (List Int)) :
    parseMatches s left elements (endMatch p :: later)
      = if left < (p : Int) then elements ++ [Element.Literal (template.slice s left p)]
        else elements := by
  simp [parseMatches, endMatch, entry]

/-- The loop of `Parse` at an escape. -/
theorem parseMatches_escape (s : List Char) (left : Int) (elements : List Element) (p : Nat)
    (later : List (List Int)) :
    parseMatches s left elements (Shape.escape.indices p :: later)
      = parseMatches s ((p + 2 : Nat) : Int)
          (elements ++ [Element.Literal (template.slice s left p ++ ['$'])]) later := by
  have hne : (p : Int) + 1 ≠ -1 := by omega
  simp only [parseMatches, Shape.indices, entry, List.getD_cons_zero, List.getD_cons_succ]
  simp [hne]

end Exo

namespace Exo

open template

/-- The loop of `Parse` at a match of the second group, a name after `$`. -/
theorem parseMatches_plain (s : List Char) (left : Int) (elements : List Element)
    (m : List Int) (later : List (List Int))
    (h2 : entry m 2 = -1) (h4 : entry m 4 ≠ -1) :
    parseMatches s left elements (m :: later)
      = parseMatches s (entry m 1)
          ((if left < entry m 0 then
              elements ++ [Element.Literal (template.slice s left (entry m 0))]
            else elements) ++ [Element.Variable (makeVariable s m (entry m 4) (entry m 5))])
          later := by
  simp only [parseMatches, h2, ne_eq, not_true_eq_false, if_false, h4]

/-- The loop of `Parse` at a match of the third group, a name in braces. -/
theorem parseMatches_braced (s : List Char) (left : Int) (elements : List Element)
    (m : List Int) (later : List (List Int))
    (h2 : entry m 2 = -1) (h4 : entry m 4 = -1) (h6 : entry m 6 ≠ -1) :
    parseMatches s left elements (m :: later)
      = parseMatches s (entry m 1)
          ((if left < entry m 0 then
              elements ++ [Element.Literal (template.slice s left (entry m 0))]
            else elements) ++ [Element.Variable (makeVariable s m (entry m 6) (entry m 7))])
          later := by
  simp only [parseMatches, h2, ne_eq, not_true_eq_false, if_false, h4, if_true, h6]

/-- A match starts where it is found and ends after its length. -/
theorem entry_bounds (sh : Shape) (p : Nat) :
    entry (sh.indices p) 0 = (p : Int) ∧ entry (sh.indices p) 1 = ((p + sh.len : Nat) : Int) := by
  match sh with
  | Shape.escape => exact ⟨rfl, rfl⟩
  | Shape.plain n =>
    refine ⟨rfl, ?_⟩
    simp only [entry, Shape.indices, Shape.len, List.getD_cons_zero, List.getD_cons_succ]
    omega
  | Shape.braced n none =>
    refine ⟨rfl, ?_⟩
    simp only [entry, Shape.indices, Shape.len, List.getD_cons_zero, List.getD_cons_succ]
    omega
  | Shape.braced n (some (k, d)) =>
    refine ⟨rfl, ?_⟩
    simp only [entry, Shape.indices, Shape.len, List.getD_cons_zero, List.getD_cons_succ]
    omega

/-- The loop of `Parse` at the match of a variable: the pending text becomes a
literal when there is some, and the variable built from the indices has the
matched text as its source. -/
theorem parseMatches_variable (pre rest : List Char) (sh : Shape)
    (hsh : shapeAt rest = some sh) (hne : sh ≠ Shape.escape) (left : Int)
    (elements : List Element) (later : List (List Int)) :
    ∃ v : Variable,
      parseMatches (pre ++ rest) left elements (sh.indices pre.length :: later)
        = parseMatches (pre ++ rest) ((pre.length + sh.len : Nat) : Int)
            ((if left < (pre.length : Int) then
                elements ++ [Element.Literal (template.slice (pre ++ rest) left pre.length)]
              else elements) ++ [Element.Variable v]) later ∧
      (Element.Variable v).source = rest.take sh.len ∧ sh.len ≤ rest.length ∧ 1 ≤ sh.len := by
  have hshape := shapeAt_some rest sh hsh
  obtain ⟨hb0, hb1⟩ := entry_bounds sh pre.length
  match sh, hne, hshape with
  | Shape.plain n, _, hshape =>
    obtain ⟨name, more, hrest, hlen⟩ := hshape
    subst hlen
    have hrest' : rest = ('$' :: name) ++ more := hrest
    have h1 : ((pre.length + 1 : Nat) : Int) ≠ -1 := by omega
    have hname : template.slice (pre ++ rest) ((pre.length + 1 : Nat) : Int)
        ((pre.length + 1 + name.length : Nat) : Int) = name :=
      slice_part _ (pre ++ ['$']) name more _ _ (by rw [hrest]; simp)
        (by simp only [List.length_append, List.length_cons, List.length_nil])
        (by simp only [List.length_append, List.length_cons, List.length_nil])
    have hget : (pre ++ rest).get? (((pre.length + 1 : Nat) : Int) - 1).toNat = some '$' :=
      get_after_part _ pre (name ++ more) '$' _ (by rw [hrest]; simp) (by omega)
    have hvar : makeVariable (pre ++ rest) ((Shape.plain name.length).indices pre.length)
        ((pre.length + 1 : Nat) : Int) ((pre.length + 1 + name.length : Nat) : Int)
        = { Name := name, Braces := false, Separator := [], DefaultOrError := [] } := by
      unfold makeVariable
      rw [hname, hget]
      simp [entry, Shape.indices]
    refine ⟨{ Name := name, Braces := false, Separator := [], DefaultOrError := [] }, ?_, ?_, ?_, ?_⟩
    · have hstep := parseMatches_plain (pre ++ rest) left elements
        ((Shape.plain name.length).indices pre.length) later rfl h1
      rw [hb0, hb1] at hstep
      rw [hstep]
      exact congrArg (fun v => parseMatches (pre ++ rest) _ (_ ++ [Element.Variable v]) later) hvar
    · rw [hrest']
      refine Eq.trans ?_ (List.take_left' ?_).symm
      · simp [Element.source]
      · simp [Shape.len]; omega
    · rw [hrest']
      simp [Shape.len]
      omega
    · simp [Shape.len]
  | Shape.braced n none, _, hshape =>
    obtain ⟨name, more, hrest, hlen⟩ := hshape
    subst hlen
    have hrest' : rest = ('$' :: '{' :: name ++ ['}']) ++ more := by rw [hrest]; simp
    have h1 : ((pre.length + 2 : Nat) : Int) ≠ -1 := by omega
    have hname : template.slice (pre ++ rest)
        ((pre.length + 2 : Nat) : Int) ((pre.length + 2 + name.length : Nat) : Int) = name :=
      slice_part _ (pre ++ ['$', '{']) name ('}' :: more) _ _ (by rw [hrest]; simp)
        (by simp only [List.length_append, List.length_cons, List.length_nil])
        (by simp only [List.length_append, List.length_cons, List.length_nil])
    have hget : (pre ++ rest).get? (((pre.length + 2 : Nat) : Int) - 1).toNat = some '{' :=
      get_after_part _ (pre ++ ['$']) (name ++ '}' :: more) '{' _ (by rw [hrest]; simp)
        (by simp only [List.length_append, List.length_cons, List.length_nil]; omega)
    have hvar : makeVariable (pre ++ rest) ((Shape.braced name.length none).indices pre.length)
        ((pre.length + 2 : Nat) : Int) ((pre.length + 2 + name.length : Nat) : Int)
        = { Name := name, Braces := true, Separator := [], DefaultOrError := [] } := by
      unfold makeVariable
      rw [hname, hget]
      simp [entry, Shape.indices]
    refine ⟨{ Name := name, Braces := true, Separator := [], DefaultOrError := [] }, ?_, ?_, ?_, ?_⟩
    · have hstep := parseMatches_braced (pre ++ rest) left elements
        ((Shape.braced name.length none).indices pre.length) later rfl rfl h1
      rw [hb0, hb1] at hstep
      rw [hstep]
      exact congrArg (fun v => parseMatches (pre ++ rest) _ (_ ++ [Element.Variable v]) later) hvar
    · rw [hrest']
      refine Eq.trans ?_ (List.take_left' ?_).symm
      · simp [Element.source]
      · simp [Shape.len]; omega
    · rw [hrest']
      simp [Shape.len]
      omega
    · simp [Shape.len]
  | Shape.braced n (some (k, d)), _, hshape =>
    obtain ⟨name, sep, dflt, more, hrest, hlen, hk, hd⟩ := hshape
    subst hlen hk hd
    have hrest' : rest = ('$' :: '{' :: name ++ sep ++ dflt ++ ['}']) ++ more := by
      rw [hrest]; simp
    have h1 : ((pre.length + 2 : Nat) : Int) ≠ -1 := by omega
    have h2 : ((pre.length + 2 + name.length + sep.length : Nat) : Int) ≠ -1 := by omega
    have hname : template.slice (pre ++ rest)
        ((pre.length + 2 : Nat) : Int) ((pre.length + 2 + name.length : Nat) : Int) = name :=
      slice_part _ (pre ++ ['$', '{']) name (sep ++ dflt ++ '}' :: more) _ _
        (by rw [hrest]; simp)
        (by simp only [List.length_append, List.length_cons, List.length_nil])
        (by simp only [List.length_append, List.length_cons, List.length_nil])
    have hsep : template.slice (pre ++ rest)
        ((pre.length + 2 + name.length : Nat) : Int)
        ((pre.length + 2 + name.length + sep.length : Nat) : Int) = sep :=
      slice_part _ (pre ++ ['$', '{'] ++ name) sep (dflt ++ '}' :: more) _ _
        (by rw [hrest]; simp)
        (by simp only [List.length_append, List.length_cons, List.length_nil])
        (by simp only [List.length_append, List.length_cons, List.length_nil])
    have hdflt : template.slice (pre ++ rest)
        ((pre.length + 2 + name.length + sep.length : Nat) : Int)
        ((pre.length + 2 + name.length + sep.length + dflt.length : Nat) : Int) = dflt :=
      slice_part _ (pre ++ ['$', '{'] ++ name ++ sep) dflt ('}' :: more) _ _
        (by rw [hrest]; simp)
        (by simp only [List.length_append, List.length_cons, List.length_nil])
        (by simp only [List.length_append, List.length_cons, List.length_nil])
    have hget : (pre ++ rest).get? (((pre.length + 2 : Nat) : Int) - 1).toNat = some '{' :=
      get_after_part _ (pre ++ ['$']) (name ++ sep ++ dflt ++ '}' :: more) '{' _
        (by rw [hrest]; simp)
        (by simp only [List.length_append, List.length_cons, List.length_nil]; omega)
    have hvar : makeVariable (pre ++ rest)
        ((Shape.braced name.length (some (sep.length, dflt.length))).indices pre.length)
        ((pre.length + 2 : Nat) : Int) ((pre.length + 2 + name.length : Nat) : Int)
        = { Name := name, Braces := true, Separator := sep, DefaultOrError := dflt } := by
      unfold makeVariable
      rw [hname, hget]
      have h2' : (pre.length : Int) + 2 + name.length + sep.length ≠ -1 := by omega
      simp only [entry, Shape.indices, List.getD_cons_zero, List.getD_cons_succ, hsep, hdflt]
      simp [h2']
    refine ⟨{ Name := name, Braces := true, Separator := sep, DefaultOrError := dflt },
      ?_, ?_, ?_, ?_⟩
    · have hstep := parseMatches_braced (pre ++ rest) left elements
        ((Shape.braced name.length (some (sep.length, dflt.length))).indices pre.length)
        later rfl rfl h1
      rw [hb0, hb1] at hstep
      rw [hstep]
      exact congrArg (fun v => parseMatches (pre ++ rest) _ (_ ++ [Element.Variable v]) later) hvar
    · rw [hrest']
      refine Eq.trans ?_ (List.take_left' ?_).symm
      · simp [Element.source]
      · simp [Shape.len]; omega
    · rw [hrest']
      simp [Shape.len]
      omega
    · simp [Shape.len]

end Exo

namespace Exo

open template

/-- The slice from `left` to the end of the text read so far. -/
theorem slice_pending (pre rest : List Char) (l : Nat) (h : l ≤ pre.length) :
    template.slice (pre ++ rest) (l : Int) (pre.length : Int) = pre.drop l := by
  unfold template.slice
  rw [Int.toNat_ofNat, Int.toNat_ofNat, List.drop_append_of_le_length h]
  exact List.take_left' (by simp)

/-- The sources of the elements once the pending text is made a literal. -/
theorem source_pending (pre rest : List Char) (l : Nat) (h : l ≤ pre.length)
    (elements : List Element) :
    ((if (l : Int) < (pre.length : Int) then
        elements ++ [Element.Literal (template.slice (pre ++ rest) l pre.length)]
      else elements).map Element.source).flatten
      = (elements.map Element.source).flatten ++ pre.drop l := by
  by_cases hlt : (l : Int) < (pre.length : Int)
  · simp [hlt, slice_pending pre rest l h, Element.source]
  · have hl : pre.length ≤ l := by omega
    simp [hlt, List.drop_eq_nil_of_le hl]

/-- The loop of `Parse` over the matches of `pattern` loses no text: the
sources of its elements are the sources of the elements it starts with, the
text pending since `left`, and the rest of the text with its escapes
replaced. -/
theorem parseMatches_scan (n : Nat) :
    ∀ rest : List Char, rest.length ≤ n →
    ∀ (pre : List Char) (l : Nat) (elements : List Element) (abut : Bool),
      l ≤ pre.length → (abut = true → l = pre.length) →
      ((parseMatches (pre ++ rest) (l : Int) elements (scan pre.length 0 abut rest)).map
          Element.source).flatten
        = (elements.map Element.source).flatten ++ pre.drop l ++ unescape 0 false rest := by
  have base : ∀ (pre : List Char) (l : Nat) (elements : List Element) (abut : Bool),
      l ≤ pre.length → (abut = true → l = pre.length) →
      ((parseMatches (pre ++ []) (l : Int) elements (scan pre.length 0 abut [])).map
          Element.source).flatten
        = (elements.map Element.source).flatten ++ pre.drop l ++ unescape 0 false [] := by
    intro pre l elements abut hl habut
    cases abut with
    | true =>
      have := habut rfl
      subst this
      simp [scan, parseMatches, unescape]
    | false =>
      simp only [scan, Bool.false_eq_true, if_false, parseMatches_end, unescape,
        List.append_nil]
      simpa using source_pending pre [] l hl elements
  induction n with
  | zero =>
    intro rest hlen pre l elements abut hl habut
    have hnil : rest = [] := List.length_eq_zero.mp (Nat.le_zero.mp hlen)
    subst hnil
    exact base pre l elements abut hl habut
  | succ n ih =>
    intro rest hlen pre l elements abut hl habut
    match rest, hlen with
    | [], _ => exact base pre l elements abut hl habut
    | c :: tl, hlen =>
      have htl : tl.length ≤ n := by simpa using hlen
      cases hsh : shapeAt (c :: tl) with
      | none =>
        have hs : (pre ++ [c]) ++ tl = pre ++ c :: tl := by simp
        have hscan : scan pre.length 0 abut (c :: tl) = scan (pre ++ [c]).length 0 false tl := by
          simp [scan, hsh]
        have hun : unescape 0 false (c :: tl) = c :: unescape 0 false tl := by
          simp [unescape, hsh]
        have hrec := ih tl htl (pre ++ [c]) l elements false
          (by simp only [List.length_append, List.length_cons, List.length_nil]; omega)
          (fun h => by cases h)
        rw [hs] at hrec
        rw [hscan, hrec, hun, List.drop_append_of_le_length hl]
        simp
      | some sh =>
        by_cases hesc : sh = Shape.escape
        · subst hesc
          obtain ⟨more, hmore⟩ := shapeAt_some (c :: tl) Shape.escape hsh
          simp only [List.cons.injEq] at hmore
          obtain ⟨rfl, rfl⟩ := hmore
          have hs : (pre ++ ['$', '$']) ++ more = pre ++ '$' :: '$' :: more := by simp
          have hscan : scan pre.length 0 abut ('$' :: '$' :: more)
              = Shape.escape.indices pre.length :: scan (pre ++ ['$', '$']).length 0 true more := by
            simp [scan, hsh, Shape.len]
          have hun : unescape 0 false ('$' :: '$' :: more) = '$' :: unescape 0 false more := by
            simp [unescape, hsh]
          have hrec := ih more (by simp only [List.length_cons] at htl; omega)
            (pre ++ ['$', '$']) (pre.length + 2)
            (elements ++ [Element.Literal
              (template.slice (pre ++ '$' :: '$' :: more) l pre.length ++ ['$'])]) true
            (by simp) (fun _ => by simp)
          rw [hs] at hrec
          rw [hscan, parseMatches_escape, hrec, hun, slice_pending pre _ l hl]
          simp [Element.source]
        · obtain ⟨v, hstep, hsrc, hle, hpos⟩ :=
            parseMatches_variable pre (c :: tl) sh hsh hesc l elements
              (scan (pre.length + 1) (sh.len - 1) true tl)
          obtain ⟨k, hk⟩ : ∃ k, sh.len = k + 1 := ⟨sh.len - 1, by omega⟩
          have hle' : k ≤ tl.length := by
            simp only [List.length_cons] at hle
            omega
          have hdrop : (c :: tl).drop sh.len = tl.drop k := by
            rw [hk]
            simp
          have htake : (c :: tl).take sh.len = c :: tl.take k := by
            rw [hk]
            simp
          have hscan : scan pre.length 0 abut (c :: tl)
              = sh.indices pre.length :: scan (pre.length + 1) (sh.len - 1) true tl := by
            simp only [scan, hsh]
          have hun : unescape 0 false (c :: tl)
              = (c :: tl).take sh.len ++ unescape 0 false ((c :: tl).drop sh.len) := by
            rw [htake, hdrop, List.cons_append, ← unescape_copy k tl hle']
            have hk' : sh.len - 1 = k := by omega
            match sh, hesc, hk' with
            | Shape.plain _, _, hk' => simp only [unescape, hsh, hk']
            | Shape.braced _ _, _, hk' => simp only [unescape, hsh, hk']
          have hs : (pre ++ (c :: tl).take sh.len) ++ (c :: tl).drop sh.len = pre ++ c :: tl := by
            rw [List.append_assoc, List.take_append_drop]
          have hplen : (pre ++ (c :: tl).take sh.len).length = pre.length + sh.len := by
            simp only [List.length_append, List.length_take]
            omega
          have hskip : scan (pre.length + 1) (sh.len - 1) true tl
              = scan (pre ++ (c :: tl).take sh.len).length 0 true ((c :: tl).drop sh.len) := by
            have hk' : sh.len - 1 = k := by omega
            rw [hk', scan_skip k tl (pre.length + 1) hle', hplen, hdrop]
            congr 1
            omega
          have hrec := ih ((c :: tl).drop sh.len)
            (by simp only [List.length_drop, List.length_cons] at hlen ⊢; omega)
            (pre ++ (c :: tl).take sh.len) (pre.length + sh.len)
            ((if (l : Int) < (pre.length : Int) then
                elements ++ [Element.Literal (template.slice (pre ++ c :: tl) l pre.length)]
              else elements) ++ [Element.Variable v]) true
            (by omega) (fun _ => hplen.symm)
          rw [hs] at hrec
          rw [hscan, hstep, hskip, hrec, hun, List.map_append, List.flatten_append,
            source_pending pre (c :: tl) l hl elements,
            List.drop_eq_nil_of_le (Nat.le_of_eq hplen)]
          simp [hsrc]

end Exo

namespace Exo

open template

/-- Replacing the escapes of a text whose `$` were each doubled gives the text
back. -/
theorem unescape_escapeDollars (t : List Char) : unescape 0 false (escapeDollars t) = t := by
  induction t with
  | nil => rfl
  | cons c t ih =>
    by_cases hc : c = '$'
    · subst hc
      simp [escapeDollars, unescape, shapeAt, ih]
    · simp [escapeDollars, hc, unescape, shapeAt_ne_dollar c _ hc, ih]

/-- On a text whose `$` were each doubled, the loop of `Parse` only ever adds
literals. -/
theorem parseMatches_escaped_literals (t : List Char) :
    ∀ (pre : List Char) (left : Int) (elements : List Element) (abut : Bool),
      (∀ e ∈ elements, ∃ value, e = Element.Literal value) →
      ∀ e ∈ parseMatches (pre ++ escapeDollars t) left elements
          (scan pre.length 0 abut (escapeDollars t)),
        ∃ value, e = Element.Literal value := by
  induction t with
  | nil =>
    intro pre left elements abut hlit e he
    cases abut with
    | true =>
      simp only [escapeDollars, scan, if_true, parseMatches] at he
      exact hlit e he
    | false =>
      simp only [escapeDollars, scan, Bool.false_eq_true, if_false, parseMatches_end] at he
      split at he
      · rcases List.mem_append.mp he with h | h
        · exact hlit e h
        · exact ⟨_, List.mem_singleton.mp h⟩
      · exact hlit e he
  | cons c t ih =>
    intro pre left elements abut hlit e he
    by_cases hc : c = '$'
    · subst hc
      have hs : pre ++ escapeDollars ('$' :: t) = (pre ++ ['$', '$']) ++ escapeDollars t := by
        simp [escapeDollars]
      have hscan : scan pre.length 0 abut (escapeDollars ('$' :: t))
          = Shape.escape.indices pre.length
            :: scan (pre ++ ['$', '$']).length 0 true (escapeDollars t) := by
        simp [escapeDollars, scan, shapeAt, Shape.len]
      rw [hscan, parseMatches_escape, hs] at he
      refine ih (pre ++ ['$', '$']) _ _ true ?_ e he
      intro x hx
      rcases List.mem_append.mp hx with h | h
      · exact hlit x h
      · exact ⟨_, List.mem_singleton.mp h⟩
    · have hs : pre ++ escapeDollars (c :: t) = (pre ++ [c]) ++ escapeDollars t := by
        simp [escapeDollars, hc]
      have hscan : scan pre.length 0 abut (escapeDollars (c :: t))
          = scan (pre ++ [c]).length 0 false (escapeDollars t) := by
        simp [escapeDollars, hc, scan, shapeAt_ne_dollar c _ hc]
      rw [hscan, hs] at he
      exact ih (pre ++ [c]) _ _ false hlit e he

/-- Substituting in literals writes their values, whatever the environment. -/
theorem substituteEach_literals (env : Environment) (elements : List Element) (w : List Char)
    (hlit : ∀ e ∈ elements, ∃ value, e = Element.Literal value) :
    substituteEach env elements w = .ok (w ++ (elements.map Element.source).flatten) := by
  induction elements generalizing w with
  | nil => simp [substituteEach]
  | cons e rest ih =>
    obtain ⟨value, rfl⟩ := hlit _ (List.mem_cons_self _ _)
    simp only [substituteEach, Element.Substitute]
    rw [ih (w ++ value) (fun x hx => hlit x (List.mem_cons_of_mem _ hx))]
    simp [Element.source]

/-- A text in which no two `$` follow each other has no escape to replace. -/
theorem unescape_no_escape (n : Nat) :
    ∀ s : List Char, s.length ≤ n → (∀ pre more, s ≠ pre ++ '$' :: '$' :: more) →
      unescape 0 false s = s := by
  induction n with
  | zero =>
    intro s hlen _
    have hnil : s = [] := List.length_eq_zero.mp (Nat.le_zero.mp hlen)
    subst hnil
    rfl
  | succ n ih =>
    intro s hlen hno
    match s, hlen, hno with
    | [], _, _ => rfl
    | c :: tl, hlen, hno =>
      have htl : tl.length ≤ n := by simpa using hlen
      have hsuffix : ∀ k pre more, tl.drop k ≠ pre ++ '$' :: '$' :: more := by
        intro k pre more h
        have hsplit := List.take_append_drop k tl
        rw [h] at hsplit
        apply hno (c :: tl.take k ++ pre) more
        simp only [List.cons_append, List.append_assoc]
        rw [hsplit]
      cases hsh : shapeAt (c :: tl) with
      | none =>
        have := ih tl htl (fun pre more h => hsuffix 0 pre more (by simpa using h))
        simp [unescape, hsh, this]
      | some sh =>
        match sh, hsh with
        | Shape.escape, hsh =>
          obtain ⟨more, hmore⟩ := shapeAt_some (c :: tl) Shape.escape hsh
          exact absurd hmore (hno [] more)
        | Shape.plain a, hsh =>
          obtain ⟨_, _, _, hle, hpos⟩ :=
            parseMatches_variable [] (c :: tl) (Shape.plain a) hsh (by simp) 0 [] []
          have hk : (Shape.plain a).len - 1 ≤ tl.length := by
            simp only [List.length_cons] at hle
            omega
          have hrec := ih (tl.drop ((Shape.plain a).len - 1))
            (by simp only [List.length_drop]; omega) (hsuffix _)
          simp only [unescape, hsh]
          rw [unescape_copy _ tl hk, hrec, List.take_append_drop]
        | Shape.braced a b, hsh =>
          obtain ⟨_, _, _, hle, hpos⟩ :=
            parseMatches_variable [] (c :: tl) (Shape.braced a b) hsh (by simp) 0 [] []
          have hk : (Shape.braced a b).len - 1 ≤ tl.length := by
            simp only [List.length_cons] at hle
            omega
          have hrec := ih (tl.drop ((Shape.braced a b).len - 1))
            (by simp only [List.length_drop]; omega) (hsuffix _)
          simp only [unescape, hsh]
          rw [unescape_copy _ tl hk, hrec, List.take_append_drop]

/-- C19: for every text `s`, `Parse` returns a sequence of literals and
variables whose sources, a literal's value and for a variable `$NAME` or
`${NAME}` with the separator and the default after the name, put together
are `s` with every escape `$$` replaced by one `$`, so that no text before,
between or after the matches is lost; they are `s` itself when no two `$`
follow each other in `s`.  A text `t` whose `$` have each been doubled is
parsed to a sequence that substitutes to `t` under every environment.  The
text after the last variable is kept, as in `${A:-x} tail`. -/
theorem Parse_loses_no_text :
    (∀ s : List Char, ∃ seq : Sequence, Parse s = .ok seq ∧
      (seq.Elements.map Element.source).flatten = unescape 0 false s) ∧
    (∀ t : List Char, ∃ seq : Sequence, Parse (escapeDollars t) = .ok seq ∧
      ∀ env : Environment, Substitute seq env = .ok t) ∧
    (∀ t : List Char, unescape 0 false (escapeDollars t) = t) ∧
    (∀ s : List Char, (∀ pre more, s ≠ pre ++ '$' :: '$' :: more) →
      ∃ seq : Sequence, Parse s = .ok seq ∧ (seq.Elements.map Element.source).flatten = s) ∧
    Parse "${A:-x} tail".toList
      = .ok { Elements :=
          [Element.Variable { Name := "A".toList, Braces := true, Separator := ":-".toList,
                              DefaultOrError := "x".toList },
           Element.Literal " tail".toList] } := by
  have hall : ∀ s : List Char,
      ((parseMatches s 0 [] (FindAllStringSubmatchIndex s)).map Element.source).flatten
        = unescape 0 false s := by
    intro s
    have h := parseMatches_scan s.length s (Nat.le_refl _) [] 0 [] false (Nat.le_refl _)
      (fun h => by cases h)
    simpa [FindAllStringSubmatchIndex] using h
  refine ⟨fun s => ⟨_, rfl, hall s⟩, ?_, unescape_escapeDollars,
    fun s hno => ⟨_, rfl, (hall s).trans (unescape_no_escape s.length s (Nat.le_refl _) hno)⟩,
    rfl⟩
  · intro t
    refine ⟨_, rfl, ?_⟩
    intro env
    have hlit := parseMatches_escaped_literals t [] 0 [] false (by simp)
    simp only [List.nil_append, List.length_nil] at hlit
    have hsub := substituteEach_literals env
      (parseMatches (escapeDollars t) 0 [] (FindAllStringSubmatchIndex (escapeDollars t))) []
      hlit
    rw [hall, unescape_escapeDollars] at hsub
    simp [Substitute, Sequence.Substitute, hsub]

end Exo

/-! ## Compose conversion: networks and links -/

namespace Exo

open compose

/-- Splitting always gives at least one part. -/
theorem splitChars_ne_nil (sep : Char) (l : List Char) : splitChars sep l ≠ [] := by
  cases l with
  | nil => simp [splitChars]
  | cons c cs =>
    simp only [splitChars]
    split
    · simp
    · split <;> simp

/-- There is one part more than there are separators. -/
theorem splitChars_length (sep : Char) (l : List Char) :
    (splitChars sep l).length = l.count sep + 1 := by
  induction l with
  | nil => simp [splitChars]
  | cons c cs ih =>
    simp only [splitChars]
    by_cases hc : c = sep
    · subst hc
      simp [ih]
    · have hne : (c == sep) = false := by simpa using hc
      simp only [hc, if_false, List.count_cons, hne, Bool.false_eq_true, Nat.add_zero]
      cases hs : splitChars sep cs with
      | nil => exact absurd hs (splitChars_ne_nil sep cs)
      | cons part parts =>
        rw [hs] at ih
        simpa using ih

/-- `Split` on a link with more than one `:` gives more than two parts. -/
theorem Split_many (link : String) (h : 2 ≤ link.data.count ':') : 3 ≤ (Split link).length := by
  simp only [Split, List.length_map, splitChars_length]
  omega

end Exo

namespace Exo

open compose

end Exo

namespace Exo

open compose

end Exo

namespace Exo

open compose

/-- The loop over the networks of a service keeps, for every network it knows,
the network as the service names it. -/
theorem mapNetworks_fst (lib : Lib) (networksByComposeName : List (String × String))
    (networks mappedNetworks : List ServiceNetwork) (dependsOn : List String)
    (diags : List Diagnostic) :
    (mapNetworks lib networksByComposeName networks mappedNetworks dependsOn diags).1
      = mappedNetworks ++ networks.map (fun network =>
          if (mapGet networksByComposeName network.Network).isSome then network
          else { Network := "" }) := by
  induction networks generalizing mappedNetworks dependsOn diags with
  | nil => simp [mapNetworks]
  | cons network rest ih =>
    unfold mapNetworks
    cases hget : mapGet networksByComposeName network.Network with
    | none => simp [ih, hget]
    | some networkName => simp [ih, hget]

/-- C17 (evaluation at the diverging input): for a service that lists
networks, the loop over them keeps each known network under the name the
service gave it, the compose name, and only the dependencies receive the name
of the Docker network.  On the project `webProject`, whose network `backend`
is created as `proj_backend`, the spec emitted for `web` names the network
`backend`.  A service that lists no network, as in `quietProject`, is attached
to the Docker network recorded for `default`. -/
theorem Convert_networks_not_mapped :
    (∀ (lib : Lib) (networksByComposeName : List (String × String))
        (networks mappedNetworks : List ServiceNetwork) (dependsOn : List String)
        (diags : List Diagnostic),
      (mapNetworks lib networksByComposeName networks mappedNetworks dependsOn diags).1
        = mappedNetworks ++ networks.map (fun network =>
            if (mapGet networksByComposeName network.Network).isSome then network
            else { Network := "" })) ∧
    Converter.Convert { ProjectName := "proj" } (sampleLib webProject) ""
      = (some [{ Typ := "network", Label := "backend",
                 Spec := BlockSpec.network { Name := "proj_backend", Driver := "bridge" } },
               { Typ := "network", Label := "default",
                 Spec := BlockSpec.fields "proj_default" "bridge" },
               { Typ := "volume", Label := "web",
                 Spec := BlockSpec.component
                   { Name := "web", Typ := "container",
                     Spec := "networks: backend; links: proj_db_1:db;proj_my-cache_1:c;",
                     DependsOn := ["proj_backend", "db", "my-cache"] } }], []) ∧
    Converter.Convert { ProjectName := "proj" } (sampleLib quietProject) ""
      = (some [{ Typ := "network", Label := "default",
                 Spec := BlockSpec.fields "proj_default" "bridge" },
               { Typ := "volume", Label := "db",
                 Spec := BlockSpec.component
                   { Name := "db", Typ := "container",
                     Spec := "networks: proj_default; links: ",
                     DependsOn := ["default"] } }], []) :=
  ⟨mapNetworks_fst, rfl, rfl⟩

end Exo

/-! ## The supervisor: lines of any length -/

namespace Exo

open fifofum

/-- No line is cut when `'\n'` is not among the bytes searched. -/
theorem cutLine_full (chunk more : List Byte) (h : newline ∉ chunk) :
    cutLine chunk.length (chunk ++ more) = none := by
  induction chunk with
  | nil => rfl
  | cons c cs ih =>
    have hc : c ≠ newline := fun hc => h (hc ▸ List.mem_cons_self _ _)
    have hcs : newline ∉ cs := fun hm => h (List.mem_cons_of_mem _ hm)
    simp [cutLine, hc, ih hcs]

/-- `ReadLine` on a full buffer without `'\n'`: the buffer is returned as a
prefix, and its final `'\r'` is put back. -/
theorem ReadLine_full (size : Nat) (fin : Option String) (chunk more : List Byte)
    (hlen : chunk.length = size) (h : newline ∉ chunk) :
    Reader.ReadLine { size := size, rest := chunk ++ more, fin := fin }
      = if chunk.getLast? = some carriageReturn then
          ((chunk.dropLast, true, none),
           { size := size, rest := carriageReturn :: more, fin := fin })
        else
          ((chunk, true, none), { size := size, rest := more, fin := fin }) := by
  have hcut : cutLine size (chunk ++ more) = none := by
    rw [← hlen]
    exact cutLine_full chunk more h
  have hle : size ≤ chunk.length + more.length := by omega
  have htake : List.take size (chunk ++ more) = chunk := by
    rw [← hlen]
    exact List.take_left' rfl
  have hdrop : List.drop size (chunk ++ more) = more := by
    rw [← hlen]
    exact List.drop_left' rfl
  unfold Reader.ReadLine Reader.ReadSlice
  simp only [hcut, List.length_append, hle, if_true, htake, hdrop]

end Exo

namespace Exo

open fifofum

/-- The loop that skips the remainder of a line that was too long: it reads up
to the `'\n'` that ends the line, writes the bytes it saved with `'\n'`, and
goes on with the next line. -/
theorem pipeLoop_skip (child : Option Nat) (name : String) (size : Nat) (fin : Option String)
    (first tail : List Byte) (R : Run) (hsize : 2 ≤ size)
    (htail : ∀ fuel, tail.length + 1 ≤ fuel →
      pipeLoop child name fuel { size := size, rest := tail, fin := fin } none = R) :
    ∀ (n : Nat) (rem : List Byte) (fuel : Nat), rem.length ≤ n → newline ∉ rem →
      (rem ++ newline :: tail).length + 1 ≤ fuel →
      pipeLoop child name fuel { size := size, rest := rem ++ newline :: tail, fin := fin }
          (some first)
        = Run.after [Effect.write (first ++ [newline])] R := by
  have short : ∀ (rem : List Byte) (fuel : Nat), rem.length < size → newline ∉ rem →
      (rem ++ newline :: tail).length + 1 ≤ fuel →
      pipeLoop child name fuel { size := size, rest := rem ++ newline :: tail, fin := fin }
          (some first)
        = Run.after [Effect.write (first ++ [newline])] R := by
    intro rem fuel hshort hrem hfuel
    obtain ⟨fuel, rfl⟩ : ∃ k, fuel = k + 1 := ⟨fuel - 1, by omega⟩
    have hread := ReadLine_line { size := size, rest := rem ++ newline :: tail, fin := fin }
      rem tail rfl hrem hshort
    have hk : tail.length + 1 ≤ fuel := by
      simp only [List.length_append, List.length_cons] at hfuel
      omega
    simp only [pipeLoop, hread]
    simp [htail fuel hk]
  intro n
  induction n with
  | zero =>
    intro rem fuel hn hrem hfuel
    exact short rem fuel (by omega) hrem hfuel
  | succ n ih =>
    intro rem fuel hn hrem hfuel
    by_cases hshort : rem.length < size
    · exact short rem fuel hshort hrem hfuel
    · obtain ⟨fuel, rfl⟩ : ∃ k, fuel = k + 1 := ⟨fuel - 1, by omega⟩
      have hsplit : rem ++ newline :: tail
          = rem.take size ++ (rem.drop size ++ newline :: tail) := by
        rw [← List.append_assoc, List.take_append_drop]
      have hlen : (rem.take size).length = size := by
        rw [List.length_take]
        omega
      have hchunk : newline ∉ rem.take size := fun hm => hrem (List.mem_of_mem_take hm)
      have hdrop : newline ∉ rem.drop size := fun hm => hrem (List.mem_of_mem_drop hm)
      have hread := ReadLine_full size fin (rem.take size) (rem.drop size ++ newline :: tail)
        hlen hchunk
      have hdl : (rem.drop size).length = rem.length - size := List.length_drop _ _
      simp only [List.length_append, List.length_cons] at hfuel
      rw [hsplit]
      by_cases hc : (rem.take size).getLast? = some carriageReturn
      · rw [if_pos hc] at hread
        have hcr : newline ∉ carriageReturn :: rem.drop size := by
          intro hm
          rcases List.mem_cons.mp hm with h | h
          · exact absurd h (by decide)
          · exact hdrop h
        have hrec := ih (carriageReturn :: rem.drop size) fuel
          (by simp only [List.length_cons]; omega) hcr
          (by simp only [List.length_append, List.length_cons]; omega)
        simp only [pipeLoop, hread]
        simpa using hrec
      · rw [if_neg hc] at hread
        have hrec := ih (rem.drop size) fuel (by omega) hdrop
          (by simp only [List.length_append, List.length_cons]; omega)
        simp only [pipeLoop, hread]
        simpa using hrec

end Exo

namespace Exo

open fifofum

/-- The line loop on a stream of lines of any length, each ended by `'\n'`,
and of a last line shorter than the buffer: one write per line, in order, of
what the first `ReadLine` of the line returned, then the return at the end of
the stream. -/
theorem pipeLoop_lines (child : Option Nat) (name : String) (size : Nat) (last : List Byte)
    (hsize : 2 ≤ size) (hlast : newline ∉ last ∧ last.length < size) :
    ∀ (lines : List (List Byte)) (fuel : Nat), (∀ l ∈ lines, newline ∉ l) →
      ((lines.map (fun l => l ++ [newline])).flatten ++ last).length + 1 ≤ fuel →
      pipeLoop child name fuel
          { size := size, rest := (lines.map (fun l => l ++ [newline])).flatten ++ last,
            fin := none } none
        = ((lines.map (fun l => Effect.write (stripCR (l.take size) ++ [newline])))
            ++ (if last = [] then [] else [Effect.write (last ++ [newline])]),
           Ending.returned) := by
  intro lines
  induction lines with
  | nil =>
    intro fuel _ hfuel
    have h := pipeLoop_short_lines child name [] last fuel
      { size := size, rest := ([].map (fun l => l ++ [newline])).flatten ++ last, fin := none }
      rfl rfl (fun l hl => absurd hl (List.not_mem_nil l)) hlast (by show 0 < size; omega) hfuel
    simpa using h
  | cons l lines ih =>
    intro fuel hlines hfuel
    have hl : newline ∉ l := hlines l (List.mem_cons_self _ _)
    have hrest : ((l :: lines).map (fun l => l ++ [newline])).flatten ++ last
        = l ++ newline :: ((lines.map (fun l => l ++ [newline])).flatten ++ last) := by
      simp
    have htail := fun fuel hf =>
      ih fuel (fun x hx => hlines x (List.mem_cons_of_mem _ hx)) hf
    rw [hrest] at hfuel ⊢
    obtain ⟨fuel, rfl⟩ : ∃ k, fuel = k + 1 := ⟨fuel - 1, by omega⟩
    simp only [List.length_append, List.length_cons] at hfuel
    by_cases hshort : l.length < size
    · have hread := ReadLine_line
        { size := size,
          rest := l ++ newline :: ((lines.map (fun l => l ++ [newline])).flatten ++ last),
          fin := none } l _ rfl hl hshort
      have htake : l.take size = l := List.take_of_length_le (by omega)
      have hrec := htail fuel (by simp only [List.length_append]; omega)
      simp only [pipeLoop, hread]
      simp [hrec, htake, Run.after]
    · have hsplit : l ++ newline :: ((lines.map (fun l => l ++ [newline])).flatten ++ last)
          = l.take size ++ (l.drop size ++ newline ::
              ((lines.map (fun l => l ++ [newline])).flatten ++ last)) := by
        rw [← List.append_assoc, List.take_append_drop]
      have hlen : (l.take size).length = size := by
        rw [List.length_take]
        omega
      have hchunk : newline ∉ l.take size := fun hm => hl (List.mem_of_mem_take hm)
      have hdrop : newline ∉ l.drop size := fun hm => hl (List.mem_of_mem_drop hm)
      have hread := ReadLine_full size none (l.take size)
        (l.drop size ++ newline :: ((lines.map (fun l => l ++ [newline])).flatten ++ last))
        hlen hchunk
      have hdl : (l.drop size).length = l.length - size := List.length_drop _ _
      rw [hsplit]
      by_cases hc : (l.take size).getLast? = some carriageReturn
      · rw [if_pos hc] at hread
        have hcr : newline ∉ carriageReturn :: l.drop size := by
          intro hm
          rcases List.mem_cons.mp hm with h | h
          · exact absurd h (by decide)
          · exact hdrop h
        have hskip := pipeLoop_skip child name size none (l.take size).dropLast _ _ hsize htail
          (l.drop size).length.succ (carriageReturn :: l.drop size) fuel
          (by simp) hcr
          (by simp only [List.length_append, List.length_cons]; omega)
        simp only [pipeLoop, hread]
        simp only [List.cons_append] at hskip
        simp [hskip, stripCR, hc, Run.after]
      · rw [if_neg hc] at hread
        have hskip := pipeLoop_skip child name size none (l.take size) _ _ hsize htail
          (l.drop size).length (l.drop size) fuel (Nat.le_refl _) hdrop
          (by simp only [List.length_append, List.length_cons]; omega)
        simp only [pipeLoop, hread]
        simp [hskip, stripCR, hc, Run.after]

end Exo

namespace Exo

open fifofum

/-- C11 (as stated, refuted): with a maximum of 16 bytes, a line of 18 bytes
whose 16th byte is `'\r'`, ended by `'\n'` and followed by the line `e`, gives
the record of its first 15 bytes and `'\n'`, not of its first 16 bytes, then
the record `e` and `'\n'`. -/
theorem pipeToFifo_long_line_cr_held_back :
    writes (pipeToFifo sampleSys (some 42) "/v" 16 readyFifo "out"
        ((List.replicate 15 97 ++ [carriageReturn, 98, 99]) ++ [newline] ++ [101, newline])
        none)
      = [List.replicate 15 97 ++ [newline], [101, newline]] ∧
    writes (pipeToFifo sampleSys (some 42) "/v" 16 readyFifo "out"
        ((List.replicate 15 97 ++ [carriageReturn, 98, 99]) ++ [newline] ++ [101, newline])
        none)
      ≠ [(List.replicate 15 97 ++ [carriageReturn, 98, 99]).take 16 ++ [newline],
         [101, newline]] := by
  decide

/-- C11 (as amended): when the pipe is ready, the maximum `M` is at least 16
and the stream is made of lines of any length, each ended by `'\n'`, and
possibly of a last line shorter than `M` ended by the end of the stream,
`pipeToFifo` writes one record per line, in order, then returns.  The record
of a line is made of the first `M` bytes of the line, or of the whole line
when it is shorter, without the last of them when it is `'\r'`, followed by
one `'\n'`: what lies beyond is discarded, and a record holds bytes of its own
line only. -/
theorem pipeToFifo_long_lines (sys : Sys) (child : Option Nat) (varDir : String) (M : Nat)
    (host : FifoHost) (name : String) (lines : List (List Byte)) (last : List Byte)
    (hmk : ∀ err, host.Mkfifo ≠ MkfifoResult.failed err) (hopen : host.OpenFile = .ok ())
    (hM : 16 ≤ M) (hlines : ∀ l ∈ lines, newline ∉ l)
    (hlast : newline ∉ last ∧ last.length < M) :
    writes (pipeToFifo sys child varDir M host name
        ((lines.map (fun l => l ++ [newline])).flatten ++ last) none)
      = lines.map (fun l =>
          (if (l.take M).getLast? = some carriageReturn then (l.take M).dropLast
           else l.take M) ++ [newline])
          ++ (if last = [] then [] else [last ++ [newline]]) ∧
    (pipeToFifo sys child varDir M host name
        ((lines.map (fun l => l ++ [newline])).flatten ++ last) none).2 = Ending.returned := by
  have hnew : NewReaderSize ((lines.map (fun l => l ++ [newline])).flatten ++ last) none M
      = { size := M, rest := (lines.map (fun l => l ++ [newline])).flatten ++ last,
          fin := none } := by
    have : ¬ M < 16 := by omega
    simp [NewReaderSize, this]
  have hloop := pipeLoop_lines child name M last (by omega) hlast lines
    (((lines.map (fun l => l ++ [newline])).flatten ++ last).length + 1) hlines (Nat.le_refl _)
  rw [pipeToFifo_ready sys child varDir M host name _ none hmk hopen, hnew, hloop]
  constructor
  · rw [writes_after_setup]
    have hform : (lines.map (fun l => Effect.write (stripCR (l.take M) ++ [newline])))
          ++ (if last = [] then [] else [Effect.write (last ++ [newline])])
        = (lines.map (fun l =>
            (if (l.take M).getLast? = some carriageReturn then (l.take M).dropLast
             else l.take M) ++ [newline])
          ++ (if last = [] then [] else [last ++ [newline]])).map Effect.write := by
      by_cases hl : last = [] <;> simp [hl, stripCR]
    rw [hform, writes_of_writes]
  · rfl

/-- Witness for C11: a line of 18 bytes whose 16th byte is `'\r'`, then the
line `e`, with a maximum of 16 bytes. -/
theorem pipeToFifo_long_lines_witness :
    writes (pipeToFifo sampleSys (some 42) "/v" 16 readyFifo "out"
        (([List.replicate 15 97 ++ [carriageReturn, 98, 99], [101]].map
          (fun l => l ++ [newline])).flatten ++ []) none)
      = [List.replicate 15 97 ++ [carriageReturn, 98, 99], [101]].map (fun l =>
          (if (l.take 16).getLast? = some carriageReturn then (l.take 16).dropLast
           else l.take 16) ++ [newline])
          ++ (if ([] : List Byte) = [] then [] else [[] ++ [newline]]) ∧
    (pipeToFifo sampleSys (some 42) "/v" 16 readyFifo "out"
        (([List.replicate 15 97 ++ [carriageReturn, 98, 99], [101]].map
          (fun l => l ++ [newline])).flatten ++ []) none).2 = Ending.returned :=
  pipeToFifo_long_lines sampleSys (some 42) "/v" 16 readyFifo "out"
    [List.replicate 15 97 ++ [carriageReturn, 98, 99], [101]] []
    (fun _ h => MkfifoResult.noConfusion h) rfl (by decide) (by decide) (by decide)

end Exo

/-! ## The supervisor: making the pipe, proxying and failures -/

namespace Exo

open fifofum

/-- The line loop on the last line of a stream, shorter than the buffer and
ended by the end of the stream: the line, if there is one, is written with
`'\n'`; then the loop returns at the end of file, or ends in `fatalf` with
the read error. -/
theorem pipeLoop_last (child : Option Nat) (name : String) (size : Nat) (fin : Option String)
    (last : List Byte) (fuel : Nat) (hsize : 0 < size)
    (hlast : newline ∉ last ∧ last.length < size) (hfuel : last.length + 1 ≤ fuel) :
    pipeLoop child name fuel { size := size, rest := last, fin := fin } none
      = Run.after (if last = [] then [] else [Effect.write (last ++ [newline])])
          (fin.elim ([], Ending.returned)
            (fun e => fatalf child ("reading " ++ name ++ ": " ++ e))) := by
  have hend := ReadLine_end { size := size, rest := [], fin := fin } rfl hsize
  by_cases hl : last = []
  · subst hl
    obtain ⟨fuel, rfl⟩ : ∃ k, fuel = k + 1 := ⟨fuel - 1, by omega⟩
    cases fin with
    | none => simp [pipeLoop, hend, Reader.finError, Run.after]
    | some e => simp [pipeLoop, hend, Reader.finError, Run.after, ReadError.text]
  · have h1 := ReadLine_last { size := size, rest := last, fin := fin } hl hlast.1 hlast.2
    obtain ⟨fuel, rfl⟩ : ∃ k, fuel = k + 2 := by
      have : 0 < last.length := List.length_pos.mpr hl
      exact ⟨fuel - 2, by omega⟩
    cases fin with
    | none => simp [pipeLoop, h1, hend, Reader.finError, Run.after, hl]
    | some e => simp [pipeLoop, h1, hend, Reader.finError, Run.after, hl, ReadError.text]

/-- The line loop on a stream of lines of any length, each ended by `'\n'`,
and of a last line shorter than the buffer, whatever ends the stream: one
write per line, in order, then the return at the end of file or `fatalf` with
the read error. -/
theorem pipeLoop_lines_then (child : Option Nat) (name : String) (size : Nat)
    (fin : Option String) (last : List Byte)
    (hsize : 2 ≤ size) (hlast : newline ∉ last ∧ last.length < size) :
    ∀ (lines : List (List Byte)) (fuel : Nat), (∀ l ∈ lines, newline ∉ l) →
      ((lines.map (fun l => l ++ [newline])).flatten ++ last).length + 1 ≤ fuel →
      pipeLoop child name fuel
          { size := size, rest := (lines.map (fun l => l ++ [newline])).flatten ++ last,
            fin := fin } none
        = Run.after
            ((lines.map (fun l => Effect.write (stripCR (l.take size) ++ [newline])))
              ++ (if last = [] then [] else [Effect.write (last ++ [newline])]))
            (fin.elim ([], Ending.returned)
              (fun e => fatalf child ("reading " ++ name ++ ": " ++ e))) := by
  intro lines
  induction lines with
  | nil =>
    intro fuel _ hfuel
    have h := pipeLoop_last child name size fin last fuel (by omega) hlast
      (by simpa using hfuel)
    simpa using h
  | cons l lines ih =>
    intro fuel hlines hfuel
    have hl : newline ∉ l := hlines l (List.mem_cons_self _ _)
    have hrest : ((l :: lines).map (fun l => l ++ [newline])).flatten ++ last
        = l ++ newline :: ((lines.map (fun l => l ++ [newline])).flatten ++ last) := by
      simp
    have htail := fun fuel hf =>
      ih fuel (fun x hx => hlines x (List.mem_cons_of_mem _ hx)) hf
    rw [hrest] at hfuel ⊢
    obtain ⟨fuel, rfl⟩ : ∃ k, fuel = k + 1 := ⟨fuel - 1, by omega⟩
    simp only [List.length_append, List.length_cons] at hfuel
    by_cases hshort : l.length < size
    · have hread := ReadLine_line
        { size := size,
          rest := l ++ newline :: ((lines.map (fun l => l ++ [newline])).flatten ++ last),
          fin := fin } l _ rfl hl hshort
      have htake : l.take size = l := List.take_of_length_le (by omega)
      have hrec := htail fuel (by simp only [List.length_append]; omega)
      simp only [pipeLoop, hread]
      simp [hrec, htake, Run.after]
    · have hsplit : l ++ newline :: ((lines.map (fun l => l ++ [newline])).flatten ++ last)
          = l.take size ++ (l.drop size ++ newline ::
              ((lines.map (fun l => l ++ [newline])).flatten ++ last)) := by
        rw [← List.append_assoc, List.take_append_drop]
      have hlen : (l.take size).length = size := by
        rw [List.length_take]
        omega
      have hchunk : newline ∉ l.take size := fun hm => hl (List.mem_of_mem_take hm)
      have hdrop : newline ∉ l.drop size := fun hm => hl (List.mem_of_mem_drop hm)
      have hread := ReadLine_full size fin (l.take size)
        (l.drop size ++ newline :: ((lines.map (fun l => l ++ [newline])).flatten ++ last))
        hlen hchunk
      have hdl : (l.drop size).length = l.length - size := List.length_drop _ _
      rw [hsplit]
      by_cases hc : (l.take size).getLast? = some carriageReturn
      · rw [if_pos hc] at hread
        have hcr : newline ∉ carriageReturn :: l.drop size := by
          intro hm
          rcases List.mem_cons.mp hm with h | h
          · exact absurd h (by decide)
          · exact hdrop h
        have hskip := pipeLoop_skip child name size fin (l.take size).dropLast _ _ hsize htail
          (l.drop size).length.succ (carriageReturn :: l.drop size) fuel
          (by simp) hcr
          (by simp only [List.length_append, List.length_cons]; omega)
        simp only [pipeLoop, hread]
        simp only [List.cons_append] at hskip
        simp [hskip, stripCR, hc, Run.after]
      · rw [if_neg hc] at hread
        have hskip := pipeLoop_skip child name size fin (l.take size) _ _ hsize htail
          (l.drop size).length (l.drop size) fuel (Nat.le_refl _) hdrop
          (by simp only [List.length_append, List.length_cons]; omega)
        simp only [pipeLoop, hread]
        simp [hskip, stripCR, hc, Run.after]

end Exo

namespace Exo

open fifofum

/-- C15: when making the pipe succeeds or fails because the path exists, and
opening it succeeds, `pipeToFifo` makes no second attempt and proxies the
lines: on a stream of lines ended by `'\n'` and of a last line shorter than the
buffer, the run is the one `Mkfifo`, the one `OpenFile`, one write per line in
order, and then the return at the end of file or, when the stream ends with a
read error, `fatalf` with `reading <name>: <error>`.  When making the pipe
fails otherwise the run is the `Mkfifo` and `fatalf` with `making fifo`, and
when opening it fails the run is the `Mkfifo`, the `OpenFile` and `fatalf` with
`opening fifo`: nothing is written.  On every stream that ends with a read
error the run ends in `fatalf` with that error, after writes only.  `fatalf`
kills the child first when there is one, then exits through `Fatalf`. -/
theorem pipeToFifo_failures (sys : Sys) (child : Option Nat) (varDir : String) (M : Nat)
    (host : FifoHost) (name : String) :
    (∀ (lines : List (List Byte)) (last : List Byte) (fin : Option String),
      (∀ err, host.Mkfifo ≠ MkfifoResult.failed err) → host.OpenFile = .ok () →
      (∀ l ∈ lines, newline ∉ l) → newline ∉ last →
      last.length < (if M < 16 then 16 else M) →
      pipeToFifo sys child varDir M host name
          ((lines.map (fun l => l ++ [newline])).flatten ++ last) fin
        = Run.after
            ([Effect.mkfifo (sys.Join varDir name), Effect.openFifo (sys.Join varDir name)]
              ++ lines.map (fun l =>
                  Effect.write (stripCR (l.take (if M < 16 then 16 else M)) ++ [newline]))
              ++ (if last = [] then [] else [Effect.write (last ++ [newline])]))
            (fin.elim ([], Ending.returned)
              (fun e => fatalf child ("reading " ++ name ++ ": " ++ e)))) ∧
    (∀ (data : List Byte) (fin : Option String) (err : String),
      host.Mkfifo = MkfifoResult.failed err →
      pipeToFifo sys child varDir M host name data fin
        = Run.after [Effect.mkfifo (sys.Join varDir name)]
            (fatalf child
              ("making fifo " ++ sys.Quote (sys.Join varDir name) ++ ": " ++ err))) ∧
    (∀ (data : List Byte) (fin : Option String) (err : String),
      (∀ e, host.Mkfifo ≠ MkfifoResult.failed e) → host.OpenFile = .error err →
      pipeToFifo sys child varDir M host name data fin
        = Run.after [Effect.mkfifo (sys.Join varDir name), Effect.openFifo (sys.Join varDir name)]
            (fatalf child
              ("opening fifo " ++ sys.Quote (sys.Join varDir name) ++ ": " ++ err))) ∧
    (∀ (data : List Byte) (e : String),
      (∀ err, host.Mkfifo ≠ MkfifoResult.failed err) → host.OpenFile = .ok () →
      ∃ records : List (List Byte), pipeToFifo sys child varDir M host name data (some e)
        = Run.after ([Effect.mkfifo (sys.Join varDir name),
                      Effect.openFifo (sys.Join varDir name)] ++ records.map Effect.write)
            (fatalf child ("reading " ++ name ++ ": " ++ e))) ∧
    (∀ (pid : Nat) (msg : String),
      fatalf (some pid) msg = ([Effect.kill pid, Effect.stderr msg], Ending.exit 1)) ∧
    (∀ msg : String, fatalf none msg = ([Effect.stderr msg], Ending.exit 1)) := by
  refine ⟨?_, ?_, ?_, ?_, ?_, ?_⟩
  · intro lines last fin hmk hopen hlines hlast hlen
    have hsz : 16 ≤ (if M < 16 then 16 else M) := by
      by_cases h : M < 16 <;> simp [h]
      omega
    have hloop := pipeLoop_lines_then child name (if M < 16 then 16 else M) fin last
      (by omega) ⟨hlast, hlen⟩ lines
      (((lines.map (fun l => l ++ [newline])).flatten ++ last).length + 1) hlines
      (Nat.le_refl _)
    rw [pipeToFifo_ready sys child varDir M host name _ fin hmk hopen]
    unfold NewReaderSize
    rw [hloop]
    simp [Run.after]
  · intro data fin err hmk
    simp [pipeToFifo, hmk]
  · intro data fin err hmk hopen
    unfold pipeToFifo
    cases hm : host.Mkfifo with
    | failed e => exact absurd hm (hmk e)
    | ok => simp [hopen, Run.after]
    | exist e => simp [hopen, Run.after]
  · intro data e hmk hopen
    have hsz := NewReaderSize_size data (some e) M
    obtain ⟨records, hrec⟩ := pipeLoop_read_error child name e (data.length + 1)
      (NewReaderSize data (some e) M) none rfl (by omega) (Nat.le_refl _)
    refine ⟨records, ?_⟩
    rw [pipeToFifo_ready sys child varDir M host name data (some e) hmk hopen, hrec]
    simp [Run.after]
  · intro pid msg
    rfl
  · intro msg
    rfl

/-- Witness for C15: the child has pid 42.  The pipe is already there and the
stream `ok\n` ends with the read error `EIO`; making the pipe fails with
`permission denied`; opening the pipe fails with `no such device`. -/
theorem pipeToFifo_failures_witness :
    pipeToFifo sampleSys (some 42) "/v" 16
        { Mkfifo := MkfifoResult.exist "file exists", OpenFile := .ok () } "out"
        [111, 107, newline] (some "EIO")
      = ([Effect.mkfifo (sampleSys.Join "/v" "out"),
          Effect.openFifo (sampleSys.Join "/v" "out"),
          Effect.write [111, 107, newline],
          Effect.kill 42, Effect.stderr "reading out: EIO"], Ending.exit 1) ∧
    pipeToFifo sampleSys (some 42) "/v" 16
        { Mkfifo := MkfifoResult.failed "permission denied", OpenFile := .ok () } "out"
        [111, 107, newline] none
      = ([Effect.mkfifo (sampleSys.Join "/v" "out"), Effect.kill 42,
          Effect.stderr ("making fifo " ++ sampleSys.Quote (sampleSys.Join "/v" "out")
            ++ ": permission denied")], Ending.exit 1) ∧
    pipeToFifo sampleSys (some 42) "/v" 16
        { Mkfifo := MkfifoResult.ok, OpenFile := .error "no such device" } "out"
        [111, 107, newline] none
      = ([Effect.mkfifo (sampleSys.Join "/v" "out"),
          Effect.openFifo (sampleSys.Join "/v" "out"), Effect.kill 42,
          Effect.stderr ("opening fifo " ++ sampleSys.Quote (sampleSys.Join "/v" "out")
            ++ ": no such device")], Ending.exit 1) :=
  ⟨(pipeToFifo_failures sampleSys (some 42) "/v" 16
      { Mkfifo := MkfifoResult.exist "file exists", OpenFile := .ok () } "out").1
      [[111, 107]] [] (some "EIO")
      (fun _ h => MkfifoResult.noConfusion h) rfl (by decide) (by decide) (by decide),
   (pipeToFifo_failures sampleSys (some 42) "/v" 16
      { Mkfifo := MkfifoResult.failed "permission denied", OpenFile := .ok () } "out").2.1
      [111, 107, newline] none "permission denied" rfl,
   (pipeToFifo_failures sampleSys (some 42) "/v" 16
      { Mkfifo := MkfifoResult.ok, OpenFile := .error "no such device" } "out").2.2.1
      [111, 107, newline] none "no such device" (fun _ h => MkfifoResult.noConfusion h) rfl⟩

end Exo

/-! ## Compose conversion: links and the label check -/

namespace Exo

open compose

end Exo

namespace Exo

open compose

end Exo
